import Mathlib

/-!
Verification of the MLFQ scheduling core of the os-simulator repository.

The development shallowly embeds the Rust modules
src/scheduler/mod.rs (MLFQScheduler), src/scheduler/metrics.rs
(SchedulerStats) and src/process/mod.rs (Process, ProcessManager)
into Lean.  Machine integers are modelled as Nat; the one place the
source explicitly requests wrapping arithmetic (wrapping_add on the
u32 tick counter) is modelled with an explicit reduction modulo 2^32.
Rust HashMap fields are modelled as association lists with
insert-replaces semantics; the claims verified here never depend on
hash-iteration order.
-/

namespace OsSim

/-- 2^32, the modulus of u32 arithmetic. -/
def U32 : Nat := 4294967296

/-! ## Association-list model of std::collections::HashMap -/

/-- Lookup in an association list keyed by Nat (HashMap::get). -/
def lookupA {α : Type} : List (Nat × α) → Nat → Option α
  | [], _ => none
  | p :: rest, k => if p.1 = k then some p.2 else lookupA rest k

/-- Remove (HashMap::remove): drops the binding of the key, if any. -/
def eraseA {α : Type} : List (Nat × α) → Nat → List (Nat × α)
  | [], _ => []
  | p :: rest, k => if p.1 = k then eraseA rest k else p :: eraseA rest k

/-- Insert (HashMap::insert): replaces any previous binding of the key. -/
def insertA {α : Type} (m : List (Nat × α)) (k : Nat) (v : α) : List (Nat × α) :=
  (k, v) :: eraseA m k

/-- In-place mutation through get_mut: applies f to the value bound to k,
identity when k is unbound (the if-let-get_mut idiom of the source). -/
def updateA {α : Type} : List (Nat × α) → Nat → (α → α) → List (Nat × α)
  | [], _, _ => []
  | p :: rest, k, f => (if p.1 = k then (p.1, f p.2) else p) :: updateA rest k f

/-! ## MLFQScheduler (src/scheduler/mod.rs) -/

/-- State of the multi-level feedback queue scheduler.  The four
VecDeque queues are the four list fields (front of the deque = head of
the list); time_quantums is the [u32; 4] array. -/
structure MLFQScheduler where
  q0 : List Nat
  q1 : List Nat
  q2 : List Nat
  q3 : List Nat
  time_quantums : List Nat
  process_queue_map : List (Nat × Nat)
  boost_interval : Nat
  current_ticks : Nat
  current_pid : Option Nat
  time_remaining : Nat
deriving DecidableEq, Repr

namespace MLFQScheduler

/-- MLFQScheduler::new. -/
def new : MLFQScheduler :=
  { q0 := [], q1 := [], q2 := [], q3 := []
    time_quantums := [8, 16, 32, 64]
    process_queue_map := []
    boost_interval := 100
    current_ticks := 0
    current_pid := none
    time_remaining := 0 }

/-- Read queues[i].  Indices above 3 never occur in the source (every
access is guarded by i < 4 or produced by the 0..4 loops); the default
is arbitrary. -/
def getQueue (s : MLFQScheduler) : Nat → List Nat
  | 0 => s.q0
  | 1 => s.q1
  | 2 => s.q2
  | 3 => s.q3
  | _ => []

/-- Write queues[i]. -/
def setQueue (s : MLFQScheduler) : Nat → List Nat → MLFQScheduler
  | 0, l => { s with q0 := l }
  | 1, l => { s with q1 := l }
  | 2, l => { s with q2 := l }
  | 3, l => { s with q3 := l }
  | _, _ => s

/-- Concatenation of the four queues in priority order; used to speak
about queue membership. -/
def allQueues (s : MLFQScheduler) : List Nat :=
  s.q0 ++ s.q1 ++ s.q2 ++ s.q3

/-- MLFQScheduler::add_process: push to the back of Q3 and record Q3 in
the reverse index. -/
def add_process (s : MLFQScheduler) (pid : Nat) : MLFQScheduler :=
  { s with q3 := s.q3 ++ [pid]
           process_queue_map := insertA s.process_queue_map pid 3 }

/-- MLFQScheduler::add_process_to_queue: guarded by queue < 4. -/
def add_process_to_queue (s : MLFQScheduler) (pid : Nat) (queue : Nat) : MLFQScheduler :=
  if queue < 4 then
    { s.setQueue queue (s.getQueue queue ++ [pid]) with
        process_queue_map := insertA s.process_queue_map pid queue }
  else s

/-- MLFQScheduler::remove_process: drop the reverse-index entry and
retain-filter the pid out of the queue it recorded. -/
def remove_process (s : MLFQScheduler) (pid : Nat) : MLFQScheduler :=
  match lookupA s.process_queue_map pid with
  | some queue_idx =>
      { s.setQueue queue_idx ((s.getQueue queue_idx).filter (fun p => p != pid)) with
          process_queue_map := eraseA s.process_queue_map pid }
  | none => s

/-- MLFQScheduler::move_process_to_queue: remove from the recorded
queue, then append to the back of the new queue and re-index. -/
def move_process_to_queue (s : MLFQScheduler) (pid : Nat) (new_queue : Nat) : MLFQScheduler :=
  if new_queue < 4 then
    let s1 :=
      match lookupA s.process_queue_map pid with
      | some old_queue =>
          { s.setQueue old_queue ((s.getQueue old_queue).filter (fun p => p != pid)) with
              process_queue_map := eraseA s.process_queue_map pid }
      | none => s
    { s1.setQueue new_queue (s1.getQueue new_queue ++ [pid]) with
        process_queue_map := insertA s1.process_queue_map pid new_queue }
  else s

/-- One while-let round of priority_boost: pop each element off the
front of a source queue, push it to the back of the destination and
re-index it to queue 0. -/
def drainTo0 : List (Nat × Nat) → List Nat → List Nat → List (Nat × Nat) × List Nat
  | m, dst, [] => (m, dst)
  | m, dst, p :: rest => drainTo0 (insertA m p 0) (dst ++ [p]) rest

/-- MLFQScheduler::priority_boost: drain queues 1, 2, 3 (in that
order) to the back of queue 0. -/
def priority_boost (s : MLFQScheduler) : MLFQScheduler :=
  let r1 := drainTo0 s.process_queue_map s.q0 s.q1
  let r2 := drainTo0 r1.1 r1.2 s.q2
  let r3 := drainTo0 r2.1 r2.2 s.q3
  { s with q0 := r3.2, q1 := [], q2 := [], q3 := []
           process_queue_map := r3.1 }

/-- The tick increment at the top of next_process
(current_ticks.wrapping_add(1)). -/
def tickInc (s : MLFQScheduler) : MLFQScheduler :=
  { s with current_ticks := (s.current_ticks + 1) % U32 }

/-- The boost condition of next_process:
current_ticks > 0 && current_ticks % boost_interval == 0. -/
def boostCond (s : MLFQScheduler) : Bool :=
  decide (0 < s.current_ticks) && (s.current_ticks % s.boost_interval == 0)

/-- The selection loop of next_process: pop the front of the first
non-empty queue, set current_pid and time_remaining to that queue's
quantum; if every queue is empty, clear current_pid (time_remaining is
left untouched) and report none. -/
def selectNext (s : MLFQScheduler) : Option (Nat × Nat) × MLFQScheduler :=
  match s.q0 with
  | pid :: rest =>
      let quantum := s.time_quantums.getD 0 0
      (some (pid, quantum),
       { s with q0 := rest, current_pid := some pid, time_remaining := quantum })
  | [] =>
    match s.q1 with
    | pid :: rest =>
        let quantum := s.time_quantums.getD 1 0
        (some (pid, quantum),
         { s with q1 := rest, current_pid := some pid, time_remaining := quantum })
    | [] =>
      match s.q2 with
      | pid :: rest =>
          let quantum := s.time_quantums.getD 2 0
          (some (pid, quantum),
           { s with q2 := rest, current_pid := some pid, time_remaining := quantum })
      | [] =>
        match s.q3 with
        | pid :: rest =>
            let quantum := s.time_quantums.getD 3 0
            (some (pid, quantum),
             { s with q3 := rest, current_pid := some pid, time_remaining := quantum })
        | [] => (none, { s with current_pid := none })

/-- MLFQScheduler::next_process: increment the tick counter (wrapping),
boost when the new counter is a positive multiple of boost_interval,
then select from the first non-empty queue. -/
def next_process (s : MLFQScheduler) : Option (Nat × Nat) × MLFQScheduler :=
  let s1 := tickInc s
  let s2 := if boostCond s1 then priority_boost s1 else s1
  selectNext s2

/-- MLFQScheduler::process_used_full_quantum: demote one level, or
re-enqueue at the back of Q3 when already there; no-op when untracked. -/
def process_used_full_quantum (s : MLFQScheduler) (pid : Nat) : MLFQScheduler :=
  match lookupA s.process_queue_map pid with
  | some current_queue =>
      if current_queue < 3 then
        s.move_process_to_queue pid (current_queue + 1)
      else
        { s with q3 := s.q3 ++ [pid] }
  | none => s

/-- MLFQScheduler::process_yielded_early: promote one level, or
re-enqueue at the back of Q0 when already there; no-op when untracked. -/
def process_yielded_early (s : MLFQScheduler) (pid : Nat) : MLFQScheduler :=
  match lookupA s.process_queue_map pid with
  | some current_queue =>
      if 0 < current_queue then
        s.move_process_to_queue pid (current_queue - 1)
      else
        { s with q0 := s.q0 ++ [pid] }
  | none => s

/-- MLFQScheduler::tick: saturating_sub on time_remaining (Nat
subtraction is saturating). -/
def tick (s : MLFQScheduler) (ticks : Nat) : MLFQScheduler :=
  { s with time_remaining := s.time_remaining - ticks }

/-- MLFQScheduler::is_quantum_expired. -/
def is_quantum_expired (s : MLFQScheduler) : Bool :=
  s.time_remaining == 0

/-- MLFQScheduler::queue_lengths. -/
def queue_lengths (s : MLFQScheduler) : List Nat :=
  [s.q0.length, s.q1.length, s.q2.length, s.q3.length]

/-- MLFQScheduler::get_process_queue. -/
def get_process_queue (s : MLFQScheduler) (pid : Nat) : Option Nat :=
  lookupA s.process_queue_map pid

/-- MLFQScheduler::reset. -/
def reset (s : MLFQScheduler) : MLFQScheduler :=
  { s with q0 := [], q1 := [], q2 := [], q3 := []
           process_queue_map := []
           current_pid := none
           time_remaining := 0
           current_ticks := 0 }

end MLFQScheduler

/-! ## SchedulerStats (src/scheduler/metrics.rs)

The start_time: Instant field (wall-clock, unused by every recording
operation and every derived statistic) is omitted.  The f64-returning
averages are not needed by any claim and are not modelled. -/

/-- Metrics record for one process (struct ProcessMetrics). -/
structure ProcessMetrics where
  pid : Nat
  turnaround_time : Nat
  response_time : Nat
  waiting_time : Nat
  execution_time : Nat
  context_switches : Nat
  queue_changes : Nat
deriving DecidableEq, Repr

/-- ProcessMetrics::new: a zeroed record. -/
def ProcessMetrics.new (pid : Nat) : ProcessMetrics :=
  { pid := pid, turnaround_time := 0, response_time := 0, waiting_time := 0
    execution_time := 0, context_switches := 0, queue_changes := 0 }

/-- System-wide statistics (struct SchedulerStats). -/
structure SchedulerStats where
  process_metrics : List (Nat × ProcessMetrics)
  total_context_switches : Nat
  total_ticks : Nat
  processes_created : Nat
  processes_terminated : Nat
  total_execution_time : Nat
  total_waiting_time : Nat
  queue_depth_samples : List (List Nat)
deriving DecidableEq, Repr

namespace SchedulerStats

/-- SchedulerStats::new. -/
def new : SchedulerStats :=
  { process_metrics := [], total_context_switches := 0, total_ticks := 0
    processes_created := 0, processes_terminated := 0
    total_execution_time := 0, total_waiting_time := 0
    queue_depth_samples := [] }

/-- SchedulerStats::record_process_created. -/
def record_process_created (s : SchedulerStats) (pid : Nat) : SchedulerStats :=
  { s with processes_created := s.processes_created + 1
           process_metrics := insertA s.process_metrics pid (ProcessMetrics.new pid) }

/-- SchedulerStats::record_context_switch: the system-wide counter is
incremented unconditionally; the per-process counter only when the pid
has a record. -/
def record_context_switch (s : SchedulerStats) (pid : Nat) : SchedulerStats :=
  { s with total_context_switches := s.total_context_switches + 1
           process_metrics := updateA s.process_metrics pid
             (fun m => { m with context_switches := m.context_switches + 1 }) }

/-- SchedulerStats::record_queue_change. -/
def record_queue_change (s : SchedulerStats) (pid : Nat) : SchedulerStats :=
  { s with process_metrics := updateA s.process_metrics pid
             (fun m => { m with queue_changes := m.queue_changes + 1 }) }

/-- SchedulerStats::record_execution_time: the system-wide total is
increased unconditionally; the per-process total only when tracked. -/
def record_execution_time (s : SchedulerStats) (pid : Nat) (time : Nat) : SchedulerStats :=
  { s with total_execution_time := s.total_execution_time + time
           process_metrics := updateA s.process_metrics pid
             (fun m => { m with execution_time := m.execution_time + time }) }

/-- SchedulerStats::record_process_terminated: the terminated counter
is incremented unconditionally; when the pid has a record, turnaround
and response are stored as given, waiting is the saturating difference
turnaround - execution_time, and waiting is added to the system
total. -/
def record_process_terminated (s : SchedulerStats) (pid : Nat)
    (turnaround : Nat) (response : Nat) : SchedulerStats :=
  let s1 := { s with processes_terminated := s.processes_terminated + 1 }
  match lookupA s1.process_metrics pid with
  | some m =>
      let waiting := turnaround - m.execution_time
      { s1 with
          process_metrics := insertA s1.process_metrics pid
            { m with turnaround_time := turnaround
                     response_time := response
                     waiting_time := waiting }
          total_waiting_time := s1.total_waiting_time + waiting }
  | none => s1

/-- SchedulerStats::sample_queue_depths. -/
def sample_queue_depths (s : SchedulerStats) (depths : List Nat) : SchedulerStats :=
  { s with queue_depth_samples := s.queue_depth_samples ++ [depths] }

/-- SchedulerStats::record_tick. -/
def record_tick (s : SchedulerStats) : SchedulerStats :=
  { s with total_ticks := s.total_ticks + 1 }

/-- SchedulerStats::get_process_metrics. -/
def get_process_metrics (s : SchedulerStats) (pid : Nat) : Option ProcessMetrics :=
  lookupA s.process_metrics pid

/-- SchedulerStats::reset. -/
def reset (_s : SchedulerStats) : SchedulerStats := new

end SchedulerStats

/-! ## Process and ProcessManager (src/process/mod.rs)

chrono timestamps are modelled as Nat values supplied by the caller of
each operation that reads Utc::now(); only their presence, not their
value, matters to the claims.  The opaque Registers and MemoryContext
placeholder structs (never read by any scheduling logic) are
omitted. -/

/-- enum ProcessState. -/
inductive ProcessState where
  | Ready
  | Running
  | Blocked
  | Terminated
deriving DecidableEq, Repr

/-- struct Process (PCB), minus the opaque register/memory context. -/
structure Process where
  pid : Nat
  ppid : Nat
  state : ProcessState
  priority : Nat
  program_counter : Nat
  time_allocated : Nat
  time_used : Nat
  total_time : Nat
  creation_time : Nat
  termination_time : Option Nat
  queue_entry_time : Nat
deriving DecidableEq, Repr

namespace Process

/-- Process::new at clock value now. -/
def new (pid ppid now : Nat) : Process :=
  { pid := pid, ppid := ppid, state := ProcessState.Ready, priority := 3
    program_counter := 0, time_allocated := 0, time_used := 0, total_time := 0
    creation_time := now, termination_time := none, queue_entry_time := now }

/-- Process::set_state: stores the new state unconditionally and stamps
termination_time with the current clock exactly when the new state is
Terminated. -/
def set_state (p : Process) (new_state : ProcessState) (now : Nat) : Process :=
  { p with state := new_state
           termination_time :=
             if new_state = ProcessState.Terminated then some now
             else p.termination_time }

/-- Process::waiting_time at a given turnaround value (saturating_sub). -/
def waiting_time_of (p : Process) (turnaround : Nat) : Nat :=
  turnaround - p.total_time

end Process

/-- struct ProcessManager. -/
structure ProcessManager where
  processes : List (Nat × Process)
  next_pid : Nat
  current_process_id : Option Nat
deriving DecidableEq, Repr

namespace ProcessManager

/-- ProcessManager::new. -/
def new : ProcessManager :=
  { processes := [], next_pid := 1, current_process_id := none }

/-- ProcessManager::create_process at clock value now; returns the
fresh pid and the updated manager. -/
def create_process (m : ProcessManager) (ppid now : Nat) : Nat × ProcessManager :=
  let pid := m.next_pid
  (pid, { m with next_pid := m.next_pid + 1
                 processes := insertA m.processes pid (Process.new pid ppid now) })

/-- ProcessManager::get_process. -/
def get_process (m : ProcessManager) (pid : Nat) : Option Process :=
  lookupA m.processes pid

/-- ProcessManager::terminate_process at clock value now. -/
def terminate_process (m : ProcessManager) (pid now : Nat) : Bool × ProcessManager :=
  match lookupA m.processes pid with
  | some _ =>
      (true, { m with processes := (updateA m.processes pid
                 (fun p => p.set_state ProcessState.Terminated now)) })
  | none => (false, m)

/-- ProcessManager::set_running_process at clock value now: records the
current pid and, when the process exists, forces its state to
Running. -/
def set_running_process (m : ProcessManager) (pid now : Nat) : ProcessManager :=
  { m with current_process_id := some pid
           processes := updateA m.processes pid
             (fun p => p.set_state ProcessState.Running now) }

/-- Mutation through get_process_mut followed by Process::set_state,
the way the orchestration layer changes a state arbitrarily. -/
def set_state_of (m : ProcessManager) (pid : Nat) (st : ProcessState) (now : Nat) :
    ProcessManager :=
  { m with processes := updateA m.processes pid (fun p => p.set_state st now) }

/-- ProcessManager::clear_running_process. -/
def clear_running_process (m : ProcessManager) : ProcessManager :=
  { m with current_process_id := none }

end ProcessManager

/-- The public Process Manager operations named by the claims, each
carrying the clock value Utc::now() would have returned. -/
inductive PMOp where
  | create (ppid now : Nat)
  | terminate (pid now : Nat)
  | setRunning (pid now : Nat)
  | setState (pid : Nat) (st : ProcessState) (now : Nat)
  | clearRunning
deriving DecidableEq, Repr

/-- Effect of one public operation on the manager. -/
def PMOp.apply (m : ProcessManager) : PMOp → ProcessManager
  | PMOp.create ppid now => (m.create_process ppid now).2
  | PMOp.terminate pid now => (m.terminate_process pid now).2
  | PMOp.setRunning pid now => m.set_running_process pid now
  | PMOp.setState pid st now => m.set_state_of pid st now
  | PMOp.clearRunning => m.clear_running_process

/-- Manager states reachable from ProcessManager::new through the
public operations. -/
inductive PMReach : ProcessManager → Prop where
  | init : PMReach ProcessManager.new
  | step {m : ProcessManager} (op : PMOp) : PMReach m → PMReach (op.apply m)

/-! ## Derived notions used by the verification -/

/-- The state next_process selects from: tick increment followed by the
conditional priority boost.  next_process is definitionally selectNext
of this state. -/
def MLFQScheduler.afterBoost (s : MLFQScheduler) : MLFQScheduler :=
  let s1 := MLFQScheduler.tickInc s
  if MLFQScheduler.boostCond s1 then MLFQScheduler.priority_boost s1 else s1

/-- Distinctness of the keys of an association list; HashMap keys are
distinct by construction and every map operation modelled here
preserves this. -/
def KeysNodup {α : Type} (m : List (Nat × α)) : Prop :=
  (m.map Prod.fst).Nodup

/-- The public scheduler operations named by the claims. -/
inductive SOp where
  | add (pid : Nat)
  | addTo (pid queue : Nat)
  | rem (pid : Nat)
  | next
  | ufq (pid : Nat)
  | yld (pid : Nat)
  | reset
deriving DecidableEq, Repr

/-- Effect of one public scheduler operation on the state (the value
returned by next_process is discarded). -/
def SOp.apply (s : MLFQScheduler) : SOp → MLFQScheduler
  | SOp.add pid => s.add_process pid
  | SOp.addTo pid queue => s.add_process_to_queue pid queue
  | SOp.rem pid => s.remove_process pid
  | SOp.next => (s.next_process).2
  | SOp.ufq pid => s.process_used_full_quantum pid
  | SOp.yld pid => s.process_yielded_early pid
  | SOp.reset => s.reset

/-- Recognizer for the promotion operation (used to state that a
counterexample execution never promotes). -/
def SOp.isYld : SOp → Bool
  | SOp.yld _ => true
  | _ => false

/-- Scheduler states reachable from MLFQScheduler::new through the
public operations under the usage discipline of the orchestration
layer: admission only of identifiers that are not already tracked, and
quantum feedback (usedFullQuantum / yieldedEarly) only for the
identifier handed out by nextProcess, which at that moment sits in no
queue. -/
inductive GReach : MLFQScheduler → Prop where
  | init : GReach MLFQScheduler.new
  | add {s : MLFQScheduler} (pid : Nat) : GReach s →
      s.get_process_queue pid = none → GReach (s.add_process pid)
  | addTo {s : MLFQScheduler} (pid queue : Nat) : GReach s →
      s.get_process_queue pid = none → GReach (s.add_process_to_queue pid queue)
  | rem {s : MLFQScheduler} (pid : Nat) : GReach s → GReach (s.remove_process pid)
  | next {s : MLFQScheduler} : GReach s → GReach (s.next_process).2
  | ufq {s : MLFQScheduler} (pid : Nat) : GReach s →
      pid ∉ s.allQueues → GReach (s.process_used_full_quantum pid)
  | yld {s : MLFQScheduler} (pid : Nat) : GReach s →
      pid ∉ s.allQueues → GReach (s.process_yielded_early pid)
  | reset {s : MLFQScheduler} : GReach s → GReach s.reset

/-- The scheduler's structural conservation invariant: distinct map
keys, no duplicated queue entries, reverse-index values in range, and
every queued identifier indexed with its queue number. -/
def SchedInv (s : MLFQScheduler) : Prop :=
  KeysNodup s.process_queue_map ∧
  s.allQueues.Nodup ∧
  (∀ pid v, lookupA s.process_queue_map pid = some v → v < 4) ∧
  (∀ pid i, i < 4 → pid ∈ s.getQueue i → lookupA s.process_queue_map pid = some i)

/-! ## Concrete executions used by counterexamples -/

/-- Counterexample execution for the starvation bound: identifier 1 is
admitted at tick 0 (queue 3) and then repeatedly dispatched and
re-enqueued with usedFullQuantum.  It is arranged to be the dispatched
(in-no-queue) identifier at the moment tick 100 arrives, so the boost
passes it by, and afterwards it is re-enqueued into queue 3. -/
def C4ops : List SOp :=
  SOp.add 1 :: (List.range 98).flatMap (fun _ => [SOp.next, SOp.ufq 1]) ++
    [SOp.next, SOp.next, SOp.ufq 1]

/-- Every state the C4 counterexample execution passes through,
initial state included. -/
def C4states : List MLFQScheduler :=
  List.scanl SOp.apply MLFQScheduler.new C4ops

/-- Process Manager state after create(0), terminate(1), setRunning(1)
(clock values 0, 1, 2): process 1 is Running again although its
termination timestamp is set. -/
def C8m3 : ProcessManager :=
  (((ProcessManager.new.create_process 0 0).2.terminate_process 1 1).2).set_running_process 1 2

/-! Smoke checks against the unit tests of src/scheduler/mod.rs
(test_next_process, test_multiple_processes_fifo_order,
test_priority_levels). -/

example :
    (MLFQScheduler.next_process
      (MLFQScheduler.add_process (MLFQScheduler.add_process MLFQScheduler.new 1) 2)).1 =
      some (1, 64) := by decide

example :
    ((MLFQScheduler.new.add_process 1).add_process 2).get_process_queue 1 = some 3 := by
  decide

example :
    (MLFQScheduler.next_process
      ((MLFQScheduler.new.add_process_to_queue 1 0).add_process_to_queue 2 3)).1 =
      some (1, 8) := by decide

/-! ## Lemmas about the association-list map -/

section MapLemmas

variable {α : Type}

@[simp] theorem lookupA_nil (k : Nat) : lookupA ([] : List (Nat × α)) k = none := rfl

theorem lookupA_cons (p : Nat × α) (m : List (Nat × α)) (k : Nat) :
    lookupA (p :: m) k = if p.1 = k then some p.2 else lookupA m k := rfl

@[simp] theorem lookupA_eraseA_self (m : List (Nat × α)) (k : Nat) :
    lookupA (eraseA m k) k = none := by
  induction m with
  | nil => rfl
  | cons a t ih =>
    by_cases hk : a.1 = k
    · simpa [eraseA, hk] using ih
    · simpa [eraseA, hk, lookupA_cons] using ih

theorem lookupA_eraseA_ne (m : List (Nat × α)) (k k2 : Nat) (h : k2 ≠ k) :
    lookupA (eraseA m k) k2 = lookupA m k2 := by
  induction m with
  | nil => rfl
  | cons a t ih =>
    by_cases hk : a.1 = k
    · have ha : ¬ a.1 = k2 := by rw [hk]; exact fun e => h e.symm
      simp only [eraseA, if_pos hk, ih, lookupA_cons, if_neg ha]
    · simp only [eraseA, if_neg hk, lookupA_cons]
      by_cases ha : a.1 = k2
      · rw [if_pos ha, if_pos ha]
      · rw [if_neg ha, if_neg ha, ih]

@[simp] theorem lookupA_insertA_self (m : List (Nat × α)) (k : Nat) (v : α) :
    lookupA (insertA m k v) k = some v := by
  simp [insertA, lookupA_cons]

theorem lookupA_insertA_ne (m : List (Nat × α)) (k k2 : Nat) (v : α) (h : k2 ≠ k) :
    lookupA (insertA m k v) k2 = lookupA m k2 := by
  have hk : k ≠ k2 := fun e => h e.symm
  rw [insertA, lookupA_cons, if_neg hk]
  exact lookupA_eraseA_ne m k k2 h

theorem lookupA_updateA (m : List (Nat × α)) (k k2 : Nat) (f : α → α) :
    lookupA (updateA m k f) k2 =
      if k2 = k then (lookupA m k2).map f else lookupA m k2 := by
  induction m with
  | nil => simp [updateA]
  | cons a t ih =>
    by_cases hk : a.1 = k
    · by_cases h2 : a.1 = k2
      · have hkk : k2 = k := h2.symm.trans hk
        simp [updateA, lookupA_cons, hk, h2, hkk]
      · have hkk : ¬ k2 = k := fun e => h2 (hk.trans e.symm)
        simp only [updateA, if_pos hk, lookupA_cons, ih, if_neg hkk]
        rw [if_neg h2, if_neg h2]
    · by_cases h2 : a.1 = k2
      · have hkk : ¬ k2 = k := fun e => hk (h2.trans e)
        simp [updateA, lookupA_cons, hk, h2, hkk]
      · simp [updateA, lookupA_cons, hk, h2, ih]

theorem updateA_of_lookup_none (m : List (Nat × α)) (k : Nat) (f : α → α)
    (h : lookupA m k = none) : updateA m k f = m := by
  induction m with
  | nil => rfl
  | cons a t ih =>
    rw [lookupA_cons] at h
    by_cases hk : a.1 = k
    · simp [hk] at h
    · have ht : lookupA t k = none := by simpa [hk] using h
      simp [updateA, hk, ih ht]

end MapLemmas

theorem eraseA_sublist (m : List (Nat × α)) (k : Nat) : (eraseA m k).Sublist m := by
  induction m with
  | nil => simp [eraseA]
  | cons a t ih =>
    by_cases hk : a.1 = k
    · simpa [eraseA, hk] using ih.trans (List.sublist_cons_self a t)
    · simpa [eraseA, hk] using ih.cons₂ a

theorem not_mem_keys_eraseA (m : List (Nat × α)) (k : Nat) :
    k ∉ (eraseA m k).map Prod.fst := by
  induction m with
  | nil => simp [eraseA]
  | cons a t ih =>
    by_cases hk : a.1 = k
    · simpa [eraseA, hk] using ih
    · rw [eraseA, if_neg hk, List.map_cons]
      intro hmem
      rcases List.mem_cons.mp hmem with h | h
      · exact hk h.symm
      · exact ih h

theorem keysNodup_eraseA (m : List (Nat × α)) (k : Nat) (h : KeysNodup m) :
    KeysNodup (eraseA m k) :=
  ((eraseA_sublist m k).map Prod.fst).nodup h

theorem keysNodup_insertA (m : List (Nat × α)) (k : Nat) (v : α) (h : KeysNodup m) :
    KeysNodup (insertA m k v) := by
  unfold KeysNodup insertA
  rw [List.map_cons]
  exact List.nodup_cons.mpr ⟨not_mem_keys_eraseA m k, keysNodup_eraseA m k h⟩

theorem keys_updateA (m : List (Nat × α)) (k : Nat) (f : α → α) :
    (updateA m k f).map Prod.fst = m.map Prod.fst := by
  induction m with
  | nil => rfl
  | cons a t ih =>
    by_cases hk : a.1 = k
    · simp [updateA, hk, ih]
    · simp [updateA, hk, ih]

/-- Keys present in the map are exactly those whose lookup succeeds. -/
theorem lookupA_isSome_iff_mem_keys (m : List (Nat × α)) (k : Nat) :
    (lookupA m k).isSome = true ↔ k ∈ m.map Prod.fst := by
  induction m with
  | nil => simp
  | cons a t ih =>
    by_cases hk : a.1 = k
    · simp [lookupA_cons, hk]
    · simp only [lookupA_cons, if_neg hk, List.map_cons, List.mem_cons]
      rw [ih]
      constructor
      · exact fun h => Or.inr h
      · rintro (h | h)
        · exact absurd h.symm hk
        · exact h

/-! ## Lemmas about the scheduler queues -/

namespace MLFQScheduler

theorem setQueue_oob (s : MLFQScheduler) (i : Nat) (l : List Nat) (h : 4 ≤ i) :
    s.setQueue i l = s := by
  match i, h with
  | (n + 4), _ => rfl

theorem getQueue_oob (s : MLFQScheduler) (j : Nat) (h : 4 ≤ j) :
    s.getQueue j = [] := by
  match j, h with
  | (n + 4), _ => rfl

theorem getQueue_setQueue_self (s : MLFQScheduler) (i : Nat) (l : List Nat) (h : i < 4) :
    (s.setQueue i l).getQueue i = l := by
  interval_cases i <;> rfl

theorem getQueue_setQueue_ne (s : MLFQScheduler) (i j : Nat) (l : List Nat) (h : i ≠ j) :
    (s.setQueue i l).getQueue j = s.getQueue j := by
  rcases lt_or_le i 4 with hi | hi
  · rcases lt_or_le j 4 with hj | hj
    · interval_cases i <;> interval_cases j <;> first | rfl | exact absurd rfl h
    · rw [getQueue_oob _ j hj, getQueue_oob _ j hj]
  · rw [setQueue_oob s i l hi]

@[simp] theorem setQueue_map (s : MLFQScheduler) (i : Nat) (l : List Nat) :
    (s.setQueue i l).process_queue_map = s.process_queue_map := by
  rcases i with _ | _ | _ | _ | i <;> rfl

@[simp] theorem setQueue_ticks (s : MLFQScheduler) (i : Nat) (l : List Nat) :
    (s.setQueue i l).current_ticks = s.current_ticks := by
  rcases i with _ | _ | _ | _ | i <;> rfl

@[simp] theorem setQueue_pid (s : MLFQScheduler) (i : Nat) (l : List Nat) :
    (s.setQueue i l).current_pid = s.current_pid := by
  rcases i with _ | _ | _ | _ | i <;> rfl

@[simp] theorem setQueue_rem (s : MLFQScheduler) (i : Nat) (l : List Nat) :
    (s.setQueue i l).time_remaining = s.time_remaining := by
  rcases i with _ | _ | _ | _ | i <;> rfl

@[simp] theorem setQueue_bi (s : MLFQScheduler) (i : Nat) (l : List Nat) :
    (s.setQueue i l).boost_interval = s.boost_interval := by
  rcases i with _ | _ | _ | _ | i <;> rfl

@[simp] theorem setQueue_tq (s : MLFQScheduler) (i : Nat) (l : List Nat) :
    (s.setQueue i l).time_quantums = s.time_quantums := by
  rcases i with _ | _ | _ | _ | i <;> rfl

theorem mem_allQueues_iff (s : MLFQScheduler) (p : Nat) :
    p ∈ s.allQueues ↔ ∃ i, i < 4 ∧ p ∈ s.getQueue i := by
  constructor
  · intro h
    rcases List.mem_append.mp h with h | h3
    · rcases List.mem_append.mp h with h | h2
      · rcases List.mem_append.mp h with h0 | h1
        · exact ⟨0, by omega, h0⟩
        · exact ⟨1, by omega, h1⟩
      · exact ⟨2, by omega, h2⟩
    · exact ⟨3, by omega, h3⟩
  · rintro ⟨i, hi, hmem⟩
    unfold allQueues
    interval_cases i
    · exact List.mem_append.mpr (Or.inl (List.mem_append.mpr (Or.inl
        (List.mem_append.mpr (Or.inl hmem)))))
    · exact List.mem_append.mpr (Or.inl (List.mem_append.mpr (Or.inl
        (List.mem_append.mpr (Or.inr hmem)))))
    · exact List.mem_append.mpr (Or.inl (List.mem_append.mpr (Or.inr hmem)))
    · exact List.mem_append.mpr (Or.inr hmem)

/-! ## Lemmas about the priority boost -/

theorem drainTo0_snd (src : List Nat) : ∀ (m : List (Nat × Nat)) (dst : List Nat),
    (drainTo0 m dst src).2 = dst ++ src := by
  induction src with
  | nil => intro m dst; simp [drainTo0]
  | cons p rest ih =>
    intro m dst
    rw [drainTo0, ih]
    simp

theorem drainTo0_fst_lookup (src : List Nat) :
    ∀ (m : List (Nat × Nat)) (dst : List Nat) (k : Nat),
    lookupA (drainTo0 m dst src).1 k = if k ∈ src then some 0 else lookupA m k := by
  induction src with
  | nil => intro m dst k; simp [drainTo0]
  | cons p rest ih =>
    intro m dst k
    rw [drainTo0, ih]
    by_cases hr : k ∈ rest
    · simp [hr]
    · by_cases hp : k = p
      · simp [hr, hp]
      · simp [hr, hp, lookupA_insertA_ne m p k 0 hp]

theorem drainTo0_fst_keysNodup (src : List Nat) :
    ∀ (m : List (Nat × Nat)) (dst : List Nat), KeysNodup m →
    KeysNodup (drainTo0 m dst src).1 := by
  induction src with
  | nil => intro m dst h; simpa [drainTo0] using h
  | cons p rest ih =>
    intro m dst h
    rw [drainTo0]
    exact ih _ _ (keysNodup_insertA m p 0 h)

theorem priority_boost_q0 (t : MLFQScheduler) :
    (t.priority_boost).q0 = t.q0 ++ t.q1 ++ t.q2 ++ t.q3 := by
  unfold priority_boost
  simp [drainTo0_snd]

theorem priority_boost_rest (t : MLFQScheduler) :
    (t.priority_boost).q1 = [] ∧ (t.priority_boost).q2 = [] ∧ (t.priority_boost).q3 = [] :=
  ⟨rfl, rfl, rfl⟩

theorem priority_boost_lookup (t : MLFQScheduler) (k : Nat) :
    lookupA (t.priority_boost).process_queue_map k =
      if k ∈ t.q1 ++ t.q2 ++ t.q3 then some 0
      else lookupA t.process_queue_map k := by
  unfold priority_boost
  simp only [drainTo0_fst_lookup, List.mem_append]
  by_cases h3 : k ∈ t.q3 <;> by_cases h2 : k ∈ t.q2 <;> by_cases h1 : k ∈ t.q1 <;>
    simp [h1, h2, h3]

theorem priority_boost_frame (t : MLFQScheduler) :
    (t.priority_boost).current_ticks = t.current_ticks ∧
    (t.priority_boost).current_pid = t.current_pid ∧
    (t.priority_boost).time_remaining = t.time_remaining ∧
    (t.priority_boost).boost_interval = t.boost_interval ∧
    (t.priority_boost).time_quantums = t.time_quantums :=
  ⟨rfl, rfl, rfl, rfl, rfl⟩

theorem next_process_eq (s : MLFQScheduler) :
    s.next_process = selectNext s.afterBoost := rfl

end MLFQScheduler

/-! ## C10: idle dispatch -/

/-- C10.  When all four queues are empty, next_process returns none and
clears current_pid, but still advances the tick counter by one (u32
wrapping increment), so idle calls count toward the boost schedule (the
boost branch is evaluated on the incremented counter exactly as in the
non-idle case); time_remaining and every other field keep their previous
values. -/
theorem C10_idle_dispatch (s : MLFQScheduler)
    (h0 : s.q0 = []) (h1 : s.q1 = []) (h2 : s.q2 = []) (h3 : s.q3 = []) :
    s.next_process =
      (none, { s with current_ticks := (s.current_ticks + 1) % U32, current_pid := none }) := by
  obtain ⟨A0, A1, A2, A3, tq, m, bi, ct, cp, tr⟩ := s
  simp only at h0 h1 h2 h3
  subst h0 h1 h2 h3
  simp only [MLFQScheduler.next_process, MLFQScheduler.tickInc]
  cases hB : MLFQScheduler.boostCond
      (MLFQScheduler.mk [] [] [] [] tq m bi ((ct + 1) % U32) cp tr) <;>
    simp only [hB, Bool.false_eq_true, if_false, if_true] <;> rfl

/-- Witness for C10: an idle scheduler at tick 99 with a stale
time_remaining of 5; the idle call advances the tick to the boost point
100 and leaves time_remaining at 5. -/
theorem C10_idle_dispatch_witness :
    (⟨[], [], [], [], [8, 16, 32, 64], [], 100, 99, some 7, 5⟩ :
        MLFQScheduler).next_process =
      (none, ⟨[], [], [], [], [8, 16, 32, 64], [], 100, 100, none, 5⟩) := by
  have h := C10_idle_dispatch
    (⟨[], [], [], [], [8, 16, 32, 64], [], 100, 99, some 7, 5⟩ : MLFQScheduler)
    rfl rfl rfl rfl
  simpa using h

/-! ## C3: tick increment and boost transition -/

/-- C3.  Every next_process call first advances the tick counter by
exactly one (in wrapping u32 arithmetic, current_ticks.wrapping_add(1)),
touching nothing else; the boost runs exactly when the resulting
counter is a nonzero multiple of boost_interval (default 100), before
selection; priority_boost drains queue 1 fully, then queue 2, then
queue 3, appending to the tail of queue 0, so boosted identifiers end
up ordered by former queue number and, within one former queue, in
their previous FIFO order, and each of them is re-indexed to queue 0. -/
theorem C3_tick_then_boost (s : MLFQScheduler) :
    s.next_process = MLFQScheduler.selectNext s.afterBoost ∧
    s.tickInc.current_ticks = (s.current_ticks + 1) % U32 ∧
    (s.tickInc.q0 = s.q0 ∧ s.tickInc.q1 = s.q1 ∧ s.tickInc.q2 = s.q2 ∧
      s.tickInc.q3 = s.q3 ∧ s.tickInc.process_queue_map = s.process_queue_map) ∧
    (MLFQScheduler.boostCond s.tickInc = true ↔
      ((s.current_ticks + 1) % U32 ≠ 0 ∧
        (s.current_ticks + 1) % U32 % s.boost_interval = 0)) ∧
    s.afterBoost =
      (if MLFQScheduler.boostCond s.tickInc = true
        then s.tickInc.priority_boost else s.tickInc) ∧
    (s.tickInc.priority_boost.q0 = s.q0 ++ s.q1 ++ s.q2 ++ s.q3 ∧
      s.tickInc.priority_boost.q1 = [] ∧ s.tickInc.priority_boost.q2 = [] ∧
      s.tickInc.priority_boost.q3 = []) ∧
    (∀ pid, pid ∈ s.q1 ++ s.q2 ++ s.q3 →
      lookupA s.tickInc.priority_boost.process_queue_map pid = some 0) ∧
    MLFQScheduler.new.boost_interval = 100 := by
  refine ⟨rfl, rfl, ⟨rfl, rfl, rfl, rfl, rfl⟩, ?_, rfl,
    ⟨MLFQScheduler.priority_boost_q0 s.tickInc, rfl, rfl, rfl⟩, ?_, rfl⟩
  · simp [MLFQScheduler.boostCond, MLFQScheduler.tickInc, Nat.pos_iff_ne_zero]
  · intro pid hmem
    rw [MLFQScheduler.priority_boost_lookup s.tickInc pid, if_pos]
    exact hmem

/-- Witness for C3: a full scheduler at tick 99; the call lands on tick
100, the boost fires, and queue 0 becomes the queues-in-order
concatenation with every boosted identifier re-indexed to queue 0. -/
theorem C3_tick_then_boost_witness :
    MLFQScheduler.boostCond
      (MLFQScheduler.tickInc
        (⟨[1], [2], [3], [4], [8, 16, 32, 64], [(1, 0), (2, 1), (3, 2), (4, 3)],
          100, 99, none, 0⟩ : MLFQScheduler)) = true ∧
    (MLFQScheduler.tickInc
        (⟨[1], [2], [3], [4], [8, 16, 32, 64], [(1, 0), (2, 1), (3, 2), (4, 3)],
          100, 99, none, 0⟩ : MLFQScheduler)).priority_boost.q0 = [1, 2, 3, 4] ∧
    lookupA (MLFQScheduler.tickInc
        (⟨[1], [2], [3], [4], [8, 16, 32, 64], [(1, 0), (2, 1), (3, 2), (4, 3)],
          100, 99, none, 0⟩ : MLFQScheduler)).priority_boost.process_queue_map 4 =
      some 0 := by
  obtain ⟨-, -, -, hiff, -, hq0, hlook, -⟩ := C3_tick_then_boost
    (⟨[1], [2], [3], [4], [8, 16, 32, 64], [(1, 0), (2, 1), (3, 2), (4, 3)],
      100, 99, none, 0⟩ : MLFQScheduler)
  exact ⟨hiff.mpr (by decide), by simpa using hq0.1, hlook 4 (by decide)⟩

/-! ## C1: priority scan, FIFO pop -/

/-- C1.  After the tick increment and any boost, next_process scans
queues 0 to 3 in order: whenever every queue below i is empty and queue
i holds pid at its head, the call returns pid with queue i's quantum,
removes exactly that head (FIFO pop: the remainder keeps its order),
leaves every other queue untouched, and records pid as current with
the quantum as remaining time.  In particular an identifier is never
taken from a higher-numbered queue while a lower-numbered one is
non-empty, and identifiers of one queue are dispatched in enqueue
order. -/
theorem C1_priority_scan (s : MLFQScheduler) (i pid : Nat) (rest : List Nat)
    (hi : i < 4)
    (hlow : ∀ j, j < i → s.afterBoost.getQueue j = [])
    (hq : s.afterBoost.getQueue i = pid :: rest) :
    s.next_process.1 = some (pid, s.afterBoost.time_quantums.getD i 0) ∧
    s.next_process.2.getQueue i = rest ∧
    (∀ j, j < 4 → j ≠ i → s.next_process.2.getQueue j = s.afterBoost.getQueue j) ∧
    s.next_process.2.current_pid = some pid ∧
    s.next_process.2.time_remaining = s.afterBoost.time_quantums.getD i 0 := by
  rw [MLFQScheduler.next_process_eq]
  revert hlow hq
  generalize s.afterBoost = t
  intro hlow hq
  obtain ⟨A0, A1, A2, A3, tq, m, bi, ct, cp, tr⟩ := t
  interval_cases i
  · simp only [MLFQScheduler.getQueue] at hq
    subst hq
    refine ⟨rfl, rfl, ?_, rfl, rfl⟩
    intro j hj hj0
    interval_cases j
    · exact absurd rfl hj0
    · rfl
    · rfl
    · rfl
  · have h0 : A0 = [] := by simpa [MLFQScheduler.getQueue] using hlow 0 (by omega)
    simp only [MLFQScheduler.getQueue] at hq
    subst h0; subst hq
    refine ⟨rfl, rfl, ?_, rfl, rfl⟩
    intro j hj hj1
    interval_cases j
    · rfl
    · exact absurd rfl hj1
    · rfl
    · rfl
  · have h0 : A0 = [] := by simpa [MLFQScheduler.getQueue] using hlow 0 (by omega)
    have h1 : A1 = [] := by simpa [MLFQScheduler.getQueue] using hlow 1 (by omega)
    simp only [MLFQScheduler.getQueue] at hq
    subst h0; subst h1; subst hq
    refine ⟨rfl, rfl, ?_, rfl, rfl⟩
    intro j hj hj2
    interval_cases j
    · rfl
    · rfl
    · exact absurd rfl hj2
    · rfl
  · have h0 : A0 = [] := by simpa [MLFQScheduler.getQueue] using hlow 0 (by omega)
    have h1 : A1 = [] := by simpa [MLFQScheduler.getQueue] using hlow 1 (by omega)
    have h2 : A2 = [] := by simpa [MLFQScheduler.getQueue] using hlow 2 (by omega)
    simp only [MLFQScheduler.getQueue] at hq
    subst h0; subst h1; subst h2; subst hq
    refine ⟨rfl, rfl, ?_, rfl, rfl⟩
    intro j hj hj3
    interval_cases j
    · rfl
    · rfl
    · rfl
    · exact absurd rfl hj3

/-- Witness for C1: queue 0 empty, queue 1 holding identifier 7; the
dispatch skips the empty queue 0, returns (7, 16) and pops queue 1. -/
theorem C1_priority_scan_witness :
    (⟨[], [7], [], [], [8, 16, 32, 64], [(7, 1)], 100, 0, none, 0⟩ :
        MLFQScheduler).next_process.1 = some (7, 16) ∧
    (⟨[], [7], [], [], [8, 16, 32, 64], [(7, 1)], 100, 0, none, 0⟩ :
        MLFQScheduler).next_process.2.getQueue 1 = [] ∧
    (⟨[], [7], [], [], [8, 16, 32, 64], [(7, 1)], 100, 0, none, 0⟩ :
        MLFQScheduler).next_process.2.current_pid = some 7 := by
  obtain ⟨h1, h2, -, h4, -⟩ := C1_priority_scan
    (⟨[], [7], [], [], [8, 16, 32, 64], [(7, 1)], 100, 0, none, 0⟩ : MLFQScheduler)
    1 7 [] (by omega) (fun j hj => by interval_cases j; rfl) (by rfl)
  exact ⟨h1, h2, h4⟩

/-! ## C5: admission -/

/-- C5 counterexample: admitting identifier 1 twice through add leaves
two entries for it in queue 3 and a reverse index of size 1 — the
claimed remove-then-append does not happen and a duplicate membership
is silently created. -/
theorem C5_counterexample :
    ((MLFQScheduler.new.add_process 1).add_process 1).q3 = [1, 1] ∧
    ((MLFQScheduler.new.add_process 1).add_process 1).queue_lengths = [0, 0, 0, 2] ∧
    ((MLFQScheduler.new.add_process 1).add_process 1).process_queue_map = [(1, 3)] := by
  decide

/-- C5 amended.  add appends the identifier to the tail of queue 3 and
records queue 3 in the reverse index; add_process_to_queue (for a queue
index below 4) appends to the tail of that queue and records it, and is
a no-op for an out-of-range index.  No existing membership is removed
by either operation: every other queue — and the rest of the target
queue — is left exactly as it was, so re-admitting a tracked identifier
duplicates its queue entries and only repoints the reverse index. -/
theorem C5_admit_appends (s : MLFQScheduler) (pid : Nat) :
    (s.add_process pid).q3 = s.q3 ++ [pid] ∧
    (s.add_process pid).q0 = s.q0 ∧
    (s.add_process pid).q1 = s.q1 ∧
    (s.add_process pid).q2 = s.q2 ∧
    (s.add_process pid).get_process_queue pid = some 3 ∧
    (∀ p2, p2 ≠ pid →
      (s.add_process pid).get_process_queue p2 = s.get_process_queue p2) ∧
    (∀ q, q < 4 →
      ((s.add_process_to_queue pid q).getQueue q = s.getQueue q ++ [pid] ∧
       (s.add_process_to_queue pid q).get_process_queue pid = some q ∧
       (∀ j, j < 4 → j ≠ q →
         (s.add_process_to_queue pid q).getQueue j = s.getQueue j) ∧
       (∀ p2, p2 ≠ pid →
         (s.add_process_to_queue pid q).get_process_queue p2 = s.get_process_queue p2))) ∧
    (∀ q, 4 ≤ q → s.add_process_to_queue pid q = s) := by
  refine ⟨rfl, rfl, rfl, rfl, lookupA_insertA_self _ _ _,
    fun p2 hp2 => lookupA_insertA_ne _ _ _ _ hp2, ?_, ?_⟩
  · intro q hq
    interval_cases q <;>
      exact ⟨rfl, lookupA_insertA_self _ _ _,
        fun j hj hne => by interval_cases j <;> first | rfl | exact absurd rfl hne,
        fun p2 hp2 => lookupA_insertA_ne _ _ _ _ hp2⟩
  · intro q hq
    unfold MLFQScheduler.add_process_to_queue
    rw [if_neg (by omega)]

/-- Witness for the amended C5 at a concrete scheduler. -/
theorem C5_admit_appends_witness :
    ((MLFQScheduler.new.add_process 1).add_process 1).q3 =
      (MLFQScheduler.new.add_process 1).q3 ++ [1] ∧
    (MLFQScheduler.new.add_process_to_queue 2 0).getQueue 0 =
      MLFQScheduler.new.getQueue 0 ++ [2] ∧
    (MLFQScheduler.new.add_process_to_queue 2 0).getQueue 3 =
      MLFQScheduler.new.getQueue 3 ∧
    MLFQScheduler.new.add_process_to_queue 2 9 = MLFQScheduler.new := by
  obtain ⟨h1, -, -, -, -, -, -, -⟩ :=
    C5_admit_appends (MLFQScheduler.new.add_process 1) 1
  obtain ⟨-, -, -, -, -, -, h7w, h8w⟩ := C5_admit_appends MLFQScheduler.new 2
  obtain ⟨ha, -, hc, -⟩ := h7w 0 (by omega)
  exact ⟨h1, ha, hc 3 (by omega) (by omega), h8w 9 (by omega)⟩

/-! ## C6: recording termination -/

/-- C6.  For a registered identifier, record_process_terminated stores
turnaround and response as given, sets the per-process waiting time to
the zero-clamped difference turnaround minus accumulated execution time
(max(0, turnaround - execution), never negative), adds that waiting
value to the system-wide waiting total and increments the terminated
counter. -/
theorem C6_record_terminated (s : SchedulerStats) (pid turnaround response : Nat)
    (m : ProcessMetrics) (h : s.get_process_metrics pid = some m) :
    (s.record_process_terminated pid turnaround response).get_process_metrics pid =
      some { m with turnaround_time := turnaround, response_time := response,
                    waiting_time := turnaround - m.execution_time } ∧
    ((turnaround - m.execution_time : Nat) : Int) =
      max 0 ((turnaround : Int) - (m.execution_time : Int)) ∧
    (s.record_process_terminated pid turnaround response).total_waiting_time =
      s.total_waiting_time + (turnaround - m.execution_time) ∧
    (s.record_process_terminated pid turnaround response).processes_terminated =
      s.processes_terminated + 1 := by
  simp only [SchedulerStats.get_process_metrics] at h
  simp only [SchedulerStats.record_process_terminated, SchedulerStats.get_process_metrics, h]
  exact ⟨lookupA_insertA_self _ _ _, by omega, by trivial, by trivial⟩

/-- Witness for C6: Scenario E of the specification — create identifier
5, record 40 units of execution, terminate with turnaround 100 and
response 10; the stored waiting time is 60 and the system waiting total
becomes 60. -/
theorem C6_record_terminated_witness :
    (((SchedulerStats.new.record_process_created 5).record_execution_time 5 40
        ).record_process_terminated 5 100 10).get_process_metrics 5 =
      some ⟨5, 100, 10, 60, 40, 0, 0⟩ ∧
    (((SchedulerStats.new.record_process_created 5).record_execution_time 5 40
        ).record_process_terminated 5 100 10).total_waiting_time = 60 := by
  obtain ⟨h1, -, h3, -⟩ := C6_record_terminated
    ((SchedulerStats.new.record_process_created 5).record_execution_time 5 40)
    5 100 10 ⟨5, 0, 0, 0, 40, 0, 0⟩ (by decide)
  exact ⟨h1, h3⟩

/-! ## C7: recording against an unregistered identifier -/

/-- C7 counterexample: record_context_switch for an identifier that was
never registered still increments the system-wide context-switch total,
so it is not a no-op. -/
theorem C7_counterexample :
    (SchedulerStats.new.record_context_switch 1).total_context_switches = 1 ∧
    SchedulerStats.new.get_process_metrics 1 = none ∧
    SchedulerStats.new.total_context_switches = 0 := by
  decide

/-- C7 amended.  For an identifier with no metrics record, the
per-process table is never touched, and record_queue_change is a
complete no-op; but record_context_switch still increments the
system-wide context-switch total, record_execution_time still adds to
the system-wide execution total, and record_process_terminated still
increments the terminated counter (the waiting total and everything
else stay unchanged). -/
theorem C7_unregistered (s : SchedulerStats) (pid : Nat)
    (h : s.get_process_metrics pid = none) :
    s.record_context_switch pid =
      { s with total_context_switches := s.total_context_switches + 1 } ∧
    s.record_queue_change pid = s ∧
    (∀ t, s.record_execution_time pid t =
      { s with total_execution_time := s.total_execution_time + t }) ∧
    (∀ a r, s.record_process_terminated pid a r =
      { s with processes_terminated := s.processes_terminated + 1 }) := by
  simp only [SchedulerStats.get_process_metrics] at h
  have hup := updateA_of_lookup_none s.process_metrics pid
  refine ⟨?_, ?_, ?_, ?_⟩
  · simp only [SchedulerStats.record_context_switch]
    rw [hup _ h]
  · simp only [SchedulerStats.record_queue_change]
    rw [hup _ h]
  · intro t
    simp only [SchedulerStats.record_execution_time]
    rw [hup _ h]
  · intro a r
    simp only [SchedulerStats.record_process_terminated, h]

/-- Witness for the amended C7 at a fresh statistics engine and the
unregistered identifier 1. -/
theorem C7_unregistered_witness :
    SchedulerStats.new.record_queue_change 1 = SchedulerStats.new ∧
    SchedulerStats.new.record_context_switch 1 =
      { SchedulerStats.new with total_context_switches :=
          SchedulerStats.new.total_context_switches + 1 } ∧
    SchedulerStats.new.record_execution_time 1 5 =
      { SchedulerStats.new with total_execution_time :=
          SchedulerStats.new.total_execution_time + 5 } ∧
    SchedulerStats.new.record_process_terminated 1 100 10 =
      { SchedulerStats.new with processes_terminated :=
          SchedulerStats.new.processes_terminated + 1 } := by
  obtain ⟨h1, h2, h3, h4⟩ := C7_unregistered SchedulerStats.new 1 (by decide)
  exact ⟨h2, h1, h3 5, h4 100 10⟩

/-! ## C9: demotion floor and promotion ceiling -/

theorem move_get_self (s : MLFQScheduler) (pid nq : Nat) (h : nq < 4) :
    (s.move_process_to_queue pid nq).get_process_queue pid = some nq := by
  unfold MLFQScheduler.move_process_to_queue MLFQScheduler.get_process_queue
  rw [if_pos h]
  exact lookupA_insertA_self _ _ _

theorem ufq_step (s : MLFQScheduler) (pid q : Nat)
    (h : s.get_process_queue pid = some q) (hq : q < 4) :
    (s.process_used_full_quantum pid).get_process_queue pid = some (min (q + 1) 3) := by
  simp only [MLFQScheduler.get_process_queue] at h
  simp only [MLFQScheduler.process_used_full_quantum, h]
  by_cases hq3 : q < 3
  · rw [if_pos hq3, min_eq_left (by omega)]
    exact move_get_self s pid (q + 1) (by omega)
  · have h3 : q = 3 := by omega
    subst h3
    rw [if_neg hq3]
    show lookupA s.process_queue_map pid = some (min 4 3)
    simpa using h

theorem yld_step (s : MLFQScheduler) (pid q : Nat)
    (h : s.get_process_queue pid = some q) (hq : q < 4) :
    (s.process_yielded_early pid).get_process_queue pid = some (q - 1) := by
  simp only [MLFQScheduler.get_process_queue] at h
  simp only [MLFQScheduler.process_yielded_early, h]
  by_cases hq0 : 0 < q
  · rw [if_pos hq0]
    exact move_get_self s pid (q - 1) (by omega)
  · have h0 : q = 0 := by omega
    subst h0
    rw [if_neg hq0]
    show lookupA s.process_queue_map pid = some 0
    simpa using h

theorem ufq_iter (pid n : Nat) : ∀ (s : MLFQScheduler) (q : Nat),
    s.get_process_queue pid = some q → q < 4 →
    ∃ qn, qn ≤ 3 ∧
      ((fun t => MLFQScheduler.process_used_full_quantum t pid)^[n] s).get_process_queue pid
        = some qn := by
  induction n with
  | zero => exact fun s q h hq => ⟨q, by omega, h⟩
  | succ k ih =>
    intro s q h hq
    rw [Function.iterate_succ_apply]
    exact ih (s.process_used_full_quantum pid) (min (q + 1) 3)
      (ufq_step s pid q h hq) (by omega)

theorem yld_iter (pid n : Nat) : ∀ (s : MLFQScheduler) (q : Nat),
    s.get_process_queue pid = some q → q < 4 →
    ∃ qn, qn ≤ 3 ∧
      ((fun t => MLFQScheduler.process_yielded_early t pid)^[n] s).get_process_queue pid
        = some qn := by
  induction n with
  | zero => exact fun s q h hq => ⟨q, by omega, h⟩
  | succ k ih =>
    intro s q h hq
    rw [Function.iterate_succ_apply]
    exact ih (s.process_yielded_early pid) (q - 1)
      (yld_step s pid q h hq) (by omega)

/-- C9.  For a tracked identifier in queue q (q < 4), usedFullQuantum
moves it to queue min(q+1, 3) and yieldedEarly to queue q-1 (floored at
0); at queue 3 usedFullQuantum merely re-enqueues at the tail of queue
3 and at queue 0 yieldedEarly merely re-enqueues at the tail of queue
0; any number of repetitions of either operation keeps the recorded
queue index at most 3 (and hence at least 0); both operations are
complete no-ops for untracked identifiers. -/
theorem C9_feedback_bounds (s : MLFQScheduler) (pid : Nat) :
    (∀ q, s.get_process_queue pid = some q → q < 4 →
      ((s.process_used_full_quantum pid).get_process_queue pid = some (min (q + 1) 3) ∧
       (s.process_yielded_early pid).get_process_queue pid = some (q - 1) ∧
       (q = 3 → s.process_used_full_quantum pid = { s with q3 := s.q3 ++ [pid] }) ∧
       (q = 0 → s.process_yielded_early pid = { s with q0 := s.q0 ++ [pid] }))) ∧
    (∀ n q, s.get_process_queue pid = some q → q < 4 →
      ∃ qn, qn ≤ 3 ∧
        ((fun t => MLFQScheduler.process_used_full_quantum t pid)^[n] s).get_process_queue pid
          = some qn) ∧
    (∀ n q, s.get_process_queue pid = some q → q < 4 →
      ∃ qn, qn ≤ 3 ∧
        ((fun t => MLFQScheduler.process_yielded_early t pid)^[n] s).get_process_queue pid
          = some qn) ∧
    (s.get_process_queue pid = none →
      s.process_used_full_quantum pid = s ∧ s.process_yielded_early pid = s) := by
  refine ⟨?_, fun n q h hq => ufq_iter pid n s q h hq,
    fun n q h hq => yld_iter pid n s q h hq, ?_⟩
  · intro q h hq
    refine ⟨ufq_step s pid q h hq, yld_step s pid q h hq, ?_, ?_⟩
    · intro h3
      subst h3
      simp only [MLFQScheduler.get_process_queue] at h
      simp only [MLFQScheduler.process_used_full_quantum, h]
      rfl
    · intro h0
      subst h0
      simp only [MLFQScheduler.get_process_queue] at h
      simp only [MLFQScheduler.process_yielded_early, h]
      rfl
  · intro h
    simp only [MLFQScheduler.get_process_queue] at h
    constructor
    · simp only [MLFQScheduler.process_used_full_quantum, h]
    · simp only [MLFQScheduler.process_yielded_early, h]

/-- Witness for C9: identifier 1 starting in queue 0 is demoted to
queue 1 by one usedFullQuantum call and is still at an index of at most
3 after five; both operations ignore the untracked identifier 9. -/
theorem C9_feedback_bounds_witness :
    ((MLFQScheduler.new.add_process_to_queue 1 0).process_used_full_quantum 1
        ).get_process_queue 1 = some 1 ∧
    (∃ qn, qn ≤ 3 ∧
      ((fun t => MLFQScheduler.process_used_full_quantum t 1)^[5]
          (MLFQScheduler.new.add_process_to_queue 1 0)).get_process_queue 1 = some qn) ∧
    (MLFQScheduler.new.add_process_to_queue 1 0).process_used_full_quantum 9 =
      MLFQScheduler.new.add_process_to_queue 1 0 := by
  obtain ⟨p1, p2, -, p4⟩ :=
    C9_feedback_bounds (MLFQScheduler.new.add_process_to_queue 1 0) 1
  obtain ⟨-, -, -, u4⟩ :=
    C9_feedback_bounds (MLFQScheduler.new.add_process_to_queue 1 0) 9
  exact ⟨(p1 0 (by decide) (by omega)).1, p2 5 0 (by decide) (by omega),
    (u4 (by decide)).1⟩

/-! ## C8: termination timestamp vs Terminated state -/

theorem set_state_state (p : Process) (st : ProcessState) (now : Nat) :
    (p.set_state st now).state = st := rfl

theorem set_state_tt (p : Process) (st : ProcessState) (now : Nat) :
    (p.set_state st now).termination_time =
      if st = ProcessState.Terminated then some now else p.termination_time := rfl

/-- Reachable managers satisfy: a Terminated process has its timestamp
set, and every stored pid is below next_pid. -/
theorem pm_inv (m : ProcessManager) (hm : PMReach m) :
    (∀ pid p, lookupA m.processes pid = some p → p.state = ProcessState.Terminated →
      p.termination_time.isSome = true) ∧
    (∀ k, k ∈ m.processes.map Prod.fst → k < m.next_pid) := by
  induction hm with
  | init =>
    exact ⟨fun pid p h => by simp [ProcessManager.new] at h,
      fun k h => by simp [ProcessManager.new] at h⟩
  | @step m0 op hr ih =>
    obtain ⟨ih1, ih2⟩ := ih
    cases op with
    | create ppid now =>
      refine ⟨?_, ?_⟩
      · intro pid p h hterm
        simp only [PMOp.apply, ProcessManager.create_process] at h
        by_cases hpid : pid = m0.next_pid
        · subst hpid
          rw [lookupA_insertA_self] at h
          cases h
          simp [Process.new] at hterm
        · rw [lookupA_insertA_ne _ _ _ _ hpid] at h
          exact ih1 pid p h hterm
      · intro k hk
        simp only [PMOp.apply, ProcessManager.create_process] at hk ⊢
        rw [insertA, List.map_cons] at hk
        rcases List.mem_cons.mp hk with h | h
        · omega
        · have : k ∈ m0.processes.map Prod.fst :=
            (((eraseA_sublist m0.processes m0.next_pid).map Prod.fst).subset) h
          have := ih2 k this
          omega
    | terminate pid0 now =>
      rcases hcase : lookupA m0.processes pid0 with _ | p0
      · refine ⟨?_, ?_⟩
        · intro pid p h hterm
          simp only [PMOp.apply, ProcessManager.terminate_process, hcase] at h
          exact ih1 pid p h hterm
        · intro k hk
          simp only [PMOp.apply, ProcessManager.terminate_process, hcase] at hk ⊢
          exact ih2 k hk
      · refine ⟨?_, ?_⟩
        · intro pid p h hterm
          simp only [PMOp.apply, ProcessManager.terminate_process, hcase] at h
          rw [lookupA_updateA] at h
          by_cases hpid : pid = pid0
          · rw [if_pos hpid] at h
            rcases hl : lookupA m0.processes pid with _ | pold
            · rw [hl] at h; cases h
            · rw [hl] at h
              simp only [Option.map] at h
              cases h
              rfl
          · rw [if_neg hpid] at h
            exact ih1 pid p h hterm
        · intro k hk
          simp only [PMOp.apply, ProcessManager.terminate_process, hcase] at hk ⊢
          rw [keys_updateA] at hk
          exact ih2 k hk
    | setRunning pid0 now =>
      refine ⟨?_, ?_⟩
      · intro pid p h hterm
        simp only [PMOp.apply, ProcessManager.set_running_process] at h
        rw [lookupA_updateA] at h
        by_cases hpid : pid = pid0
        · rw [if_pos hpid] at h
          rcases hl : lookupA m0.processes pid with _ | pold
          · rw [hl] at h; cases h
          · rw [hl] at h
            simp only [Option.map] at h
            cases h
            rw [set_state_state] at hterm
            exact absurd hterm (by decide)
        · rw [if_neg hpid] at h
          exact ih1 pid p h hterm
      · intro k hk
        simp only [PMOp.apply, ProcessManager.set_running_process] at hk
        rw [keys_updateA] at hk
        exact ih2 k hk
    | setState pid0 st now =>
      refine ⟨?_, ?_⟩
      · intro pid p h hterm
        simp only [PMOp.apply, ProcessManager.set_state_of] at h
        rw [lookupA_updateA] at h
        by_cases hpid : pid = pid0
        · rw [if_pos hpid] at h
          rcases hl : lookupA m0.processes pid with _ | pold
          · rw [hl] at h; cases h
          · rw [hl] at h
            simp only [Option.map] at h
            cases h
            by_cases hst : st = ProcessState.Terminated
            · show ((pold.set_state st now).termination_time).isSome = true
              rw [set_state_tt, if_pos hst]
              rfl
            · rw [set_state_state] at hterm
              exact absurd hterm hst
        · rw [if_neg hpid] at h
          exact ih1 pid p h hterm
      · intro k hk
        simp only [PMOp.apply, ProcessManager.set_state_of] at hk
        rw [keys_updateA] at hk
        exact ih2 k hk
    | clearRunning =>
      exact ⟨fun pid p h hterm => ih1 pid p h hterm, fun k hk => ih2 k hk⟩

/-- No public operation ever clears a set termination timestamp. -/
theorem pm_tt_monotone (m : ProcessManager) (hm : PMReach m) (op : PMOp) (pid : Nat)
    (p p2 : Process) (h1 : m.get_process pid = some p)
    (h2 : (op.apply m).get_process pid = some p2)
    (hs : p.termination_time.isSome = true) : p2.termination_time.isSome = true := by
  simp only [ProcessManager.get_process] at h1 h2
  cases op with
  | create ppid now =>
    simp only [PMOp.apply, ProcessManager.create_process] at h2
    by_cases hpid : pid = m.next_pid
    · have hmem : pid ∈ m.processes.map Prod.fst :=
        (lookupA_isSome_iff_mem_keys m.processes pid).mp (by rw [h1]; rfl)
      have := (pm_inv m hm).2 pid hmem
      omega
    · rw [lookupA_insertA_ne _ _ _ _ hpid, h1] at h2
      cases h2
      exact hs
  | terminate pid0 now =>
    rcases hcase : lookupA m.processes pid0 with _ | p0
    · simp only [PMOp.apply, ProcessManager.terminate_process, hcase] at h2
      rw [h1] at h2
      cases h2
      exact hs
    · simp only [PMOp.apply, ProcessManager.terminate_process, hcase] at h2
      rw [lookupA_updateA] at h2
      by_cases hpid : pid = pid0
      · rw [if_pos hpid, h1] at h2
        simp only [Option.map] at h2
        cases h2
        rfl
      · rw [if_neg hpid, h1] at h2
        cases h2
        exact hs
  | setRunning pid0 now =>
    simp only [PMOp.apply, ProcessManager.set_running_process] at h2
    rw [lookupA_updateA] at h2
    by_cases hpid : pid = pid0
    · rw [if_pos hpid, h1] at h2
      simp only [Option.map] at h2
      cases h2
      rw [set_state_tt, if_neg (by decide)]
      exact hs
    · rw [if_neg hpid, h1] at h2
      cases h2
      exact hs
  | setState pid0 st now =>
    simp only [PMOp.apply, ProcessManager.set_state_of] at h2
    rw [lookupA_updateA] at h2
    by_cases hpid : pid = pid0
    · rw [if_pos hpid, h1] at h2
      simp only [Option.map] at h2
      cases h2
      by_cases hst : st = ProcessState.Terminated
      · rw [set_state_tt, if_pos hst]
        rfl
      · rw [set_state_tt, if_neg hst]
        exact hs
    · rw [if_neg hpid, h1] at h2
      cases h2
      exact hs
  | clearRunning =>
    simp only [PMOp.apply, ProcessManager.clear_running_process] at h2
    rw [h1] at h2
    cases h2
    exact hs

/-- C8 counterexample: after create, terminate, setRunning — all
public Process Manager operations — process 1 is in state Running while
its termination timestamp is still set, so the if-and-only-if fails and
the state did change after Terminated. -/
theorem C8_counterexample :
    (C8m3.get_process 1).map Process.state = some ProcessState.Running ∧
    (C8m3.get_process 1).map Process.termination_time = some (some 1) := by
  decide

/-- C8 amended.  In every reachable manager state, a process in state
Terminated has its termination timestamp set, and no public operation
ever clears a set timestamp.  The converse direction does not hold and
Terminated is not final: setRunning or set_state can move a terminated
process back to another state, leaving the timestamp set. -/
theorem C8_terminated_timestamp (m : ProcessManager) (hm : PMReach m) :
    (∀ pid p, m.get_process pid = some p → p.state = ProcessState.Terminated →
      p.termination_time.isSome = true) ∧
    (∀ (op : PMOp) (pid : Nat) (p p2 : Process),
      m.get_process pid = some p → (op.apply m).get_process pid = some p2 →
      p.termination_time.isSome = true → p2.termination_time.isSome = true) :=
  ⟨fun pid p h ht => (pm_inv m hm).1 pid p h ht,
   fun op pid p p2 h1 h2 hs => pm_tt_monotone m hm op pid p p2 h1 h2 hs⟩

/-- Witness for the amended C8: in the reachable state reached by
create then terminate, the terminated process 1 carries a timestamp,
and a subsequent setRunning keeps it set. -/
theorem C8_terminated_timestamp_witness :
    (Process.mk 1 0 ProcessState.Terminated 3 0 0 0 0 0 (some 1) 0
      ).termination_time.isSome = true ∧
    (Process.mk 1 0 ProcessState.Running 3 0 0 0 0 0 (some 1) 0
      ).termination_time.isSome = true := by
  have hreach : PMReach ((PMOp.terminate 1 1).apply
      ((PMOp.create 0 0).apply ProcessManager.new)) :=
    PMReach.step _ (PMReach.step _ PMReach.init)
  obtain ⟨hinv, hmono⟩ := C8_terminated_timestamp _ hreach
  refine ⟨hinv 1 _ (by decide) (by decide), ?_⟩
  exact hmono (PMOp.setRunning 1 2) 1
    (Process.mk 1 0 ProcessState.Terminated 3 0 0 0 0 0 (some 1) 0)
    (Process.mk 1 0 ProcessState.Running 3 0 0 0 0 0 (some 1) 0)
    (by decide) (by decide) (by decide)

/-! ## C4: starvation bound -/

theorem selectNext_q0_cons (t : MLFQScheduler) (a : Nat) (rest : List Nat)
    (h : t.q0 = a :: rest) :
    MLFQScheduler.selectNext t =
      (some (a, t.time_quantums.getD 0 0),
       { t with q0 := rest, current_pid := some a,
                time_remaining := t.time_quantums.getD 0 0 }) := by
  obtain ⟨A0, A1, A2, A3, tq, m, bi, ct, cp, tr⟩ := t
  simp only at h
  subst h
  rfl

/-- C4 counterexample: identifier 1 is admitted at tick 0 into queue 3
and never promoted; it is dispatched at tick 99, so when the call at
tick 100 fires the boost, identifier 1 sits in no queue and the boost
passes it by; its usedFullQuantum re-enqueue then puts it back into
queue 3.  Queue 0 is empty in every state of the execution, so at tick
100 = 0 + boost_interval the identifier has never been a member of
queue 0 and currently sits in queue 3. -/
theorem C4_counterexample :
    C4ops.all (fun op => !op.isYld) = true ∧
    (C4states.getD 1 MLFQScheduler.new).current_ticks = 0 ∧
    (C4states.getD 1 MLFQScheduler.new).get_process_queue 1 = some 3 ∧
    MLFQScheduler.new.boost_interval = 100 ∧
    C4states.all (fun st => st.q0.isEmpty) = true ∧
    (C4states.getLast?).map
        (fun st => (st.current_ticks, st.get_process_queue 1)) =
      some (100, some 3) := by
  refine ⟨by decide, by decide, by decide, by decide, by decide, by decide⟩

/-- C4 amended.  The boost does move every queue-resident identifier to
queue 0: if a next_process call lands on a boost tick, every identifier
that was in any of the four queues before the call is afterwards either
in queue 0 or is exactly the identifier dispatched by that call.  The
original bound fails only for an identifier that is dispatched (in no
queue) at the moment the boost fires: the boost passes it by and its
later re-enqueue can put it back below queue 0, as the counterexample
execution shows. -/
theorem C4_boost_reaches_q0 (s : MLFQScheduler) (pid : Nat)
    (hmem : pid ∈ s.allQueues)
    (hboost : MLFQScheduler.boostCond s.tickInc = true) :
    (∃ qt, s.next_process.1 = some (pid, qt)) ∨ pid ∈ s.next_process.2.q0 := by
  rw [MLFQScheduler.next_process_eq]
  have hb : s.afterBoost = s.tickInc.priority_boost := by
    simp only [MLFQScheduler.afterBoost]
    rw [if_pos hboost]
  rw [hb]
  have hq0 : s.tickInc.priority_boost.q0 = s.allQueues :=
    MLFQScheduler.priority_boost_q0 s.tickInc
  rcases hq : s.tickInc.priority_boost.q0 with _ | ⟨a, rest⟩
  · rw [hq] at hq0
    rw [← hq0] at hmem
    cases hmem
  · rw [selectNext_q0_cons _ a rest hq]
    have hmem2 : pid ∈ a :: rest := by
      rw [hq] at hq0
      rw [← hq0] at hmem
      exact hmem
    rcases List.mem_cons.mp hmem2 with hpid | hpid
    · exact Or.inl ⟨s.tickInc.priority_boost.time_quantums.getD 0 0, by rw [hpid]⟩
    · exact Or.inr hpid

/-- Witness for the amended C4: identifier 1 sits in queue 3 at tick
99; the call at tick 100 boosts it into queue 0 and dispatches it. -/
theorem C4_boost_reaches_q0_witness :
    (1 ∈ (⟨[], [], [], [1], [8, 16, 32, 64], [(1, 3)], 100, 99, none, 0⟩ :
        MLFQScheduler).allQueues) ∧
    MLFQScheduler.boostCond
      (⟨[], [], [], [1], [8, 16, 32, 64], [(1, 3)], 100, 99, none, 0⟩ :
        MLFQScheduler).tickInc = true ∧
    ((∃ qt, (⟨[], [], [], [1], [8, 16, 32, 64], [(1, 3)], 100, 99, none, 0⟩ :
        MLFQScheduler).next_process.1 = some (1, qt)) ∨
      1 ∈ (⟨[], [], [], [1], [8, 16, 32, 64], [(1, 3)], 100, 99, none, 0⟩ :
        MLFQScheduler).next_process.2.q0) := by
  refine ⟨by decide, by decide, ?_⟩
  exact C4_boost_reaches_q0
    (⟨[], [], [], [1], [8, 16, 32, 64], [(1, 3)], 100, 99, none, 0⟩ : MLFQScheduler)
    1 (by decide) (by decide)

/-! ## C2: conservation -/

/-- Appending one fresh element at the tail of any of four concatenated
lists preserves distinctness. -/
theorem nodup_insert4 (pid : Nat) (w x y z : List Nat)
    (h : (w ++ x ++ y ++ z).Nodup) (hp : pid ∉ w ++ x ++ y ++ z) :
    ((w ++ [pid]) ++ x ++ y ++ z).Nodup ∧
    (w ++ (x ++ [pid]) ++ y ++ z).Nodup ∧
    (w ++ x ++ (y ++ [pid]) ++ z).Nodup ∧
    (w ++ x ++ y ++ (z ++ [pid])).Nodup := by
  have base : (pid :: (w ++ x ++ y ++ z)).Nodup := List.nodup_cons.mpr ⟨hp, h⟩
  have p0 : List.Perm (w ++ [pid]) (pid :: w) := List.perm_append_singleton pid w
  refine ⟨?_, ?_, ?_, ?_⟩
  · exact (((p0.append_right x).append_right y).append_right z).symm.nodup base
  · have p1 : List.Perm (w ++ (x ++ [pid])) (pid :: (w ++ x)) :=
      ((List.perm_append_singleton pid x).append_left w).trans List.perm_middle
    exact ((p1.append_right y).append_right z).symm.nodup base
  · have p2 : List.Perm ((w ++ x) ++ (y ++ [pid])) (pid :: ((w ++ x) ++ y)) :=
      ((List.perm_append_singleton pid y).append_left (w ++ x)).trans List.perm_middle
    exact (p2.append_right z).symm.nodup base
  · have p3 : List.Perm (((w ++ x) ++ y) ++ (z ++ [pid])) (pid :: (((w ++ x) ++ y) ++ z)) :=
      ((List.perm_append_singleton pid z).append_left ((w ++ x) ++ y)).trans
        List.perm_middle
    exact p3.symm.nodup base

theorem untracked_not_mem (s : MLFQScheduler) (pid : Nat)
    (hagree : ∀ p i, i < 4 → p ∈ s.getQueue i → lookupA s.process_queue_map p = some i)
    (h : lookupA s.process_queue_map pid = none) : pid ∉ s.allQueues := by
  intro hmem
  rcases (s.mem_allQueues_iff pid).mp hmem with ⟨i, hi, hmi⟩
  rw [hagree pid i hi hmi] at h
  cases h

/-- Core preservation step: appending a fresh identifier at the tail of
queue q (q < 4) and indexing it there keeps the invariant, for any map
m that is keyed distinctly, in range, and agrees with the queues on
every other identifier. -/
theorem inv_append_insert (s : MLFQScheduler) (m : List (Nat × Nat)) (pid q : Nat)
    (hq : q < 4)
    (hkeys : KeysNodup m)
    (hnodup : s.allQueues.Nodup)
    (hpid : pid ∉ s.allQueues)
    (hbound : ∀ p v, lookupA m p = some v → v < 4)
    (hagree : ∀ p i, i < 4 → p ∈ s.getQueue i → p ≠ pid → lookupA m p = some i) :
    SchedInv { s.setQueue q (s.getQueue q ++ [pid]) with
                 process_queue_map := insertA m pid q } := by
  have hproj : ∀ j, ({ s.setQueue q (s.getQueue q ++ [pid]) with
      process_queue_map := insertA m pid q } : MLFQScheduler).getQueue j =
        (s.setQueue q (s.getQueue q ++ [pid])).getQueue j := by
    intro j
    rcases j with _ | _ | _ | _ | j <;> rfl
  have hnotmem : ∀ i, i < 4 → pid ∉ s.getQueue i := by
    intro i hi hmem
    exact hpid ((s.mem_allQueues_iff pid).mpr ⟨i, hi, hmem⟩)
  refine ⟨keysNodup_insertA m pid q hkeys, ?_, ?_, ?_⟩
  · -- distinctness of the queues
    obtain ⟨h4a, h4b, h4c, h4d⟩ := nodup_insert4 pid s.q0 s.q1 s.q2 s.q3 hnodup hpid
    interval_cases q
    · exact h4a
    · exact h4b
    · exact h4c
    · exact h4d
  · -- range bound
    intro p v h
    by_cases hp : p = pid
    · subst hp
      rw [lookupA_insertA_self] at h
      cases h
      exact hq
    · rw [lookupA_insertA_ne _ _ _ _ hp] at h
      exact hbound p v h
  · -- agreement
    intro p i hi hmem
    rw [hproj i] at hmem
    by_cases hiq : i = q
    · subst hiq
      rw [s.getQueue_setQueue_self i _ hi] at hmem
      rcases List.mem_append.mp hmem with hold | hnew
      · have hp : p ≠ pid := fun e => hnotmem i hi (e ▸ hold)
        rw [lookupA_insertA_ne _ _ _ _ hp]
        exact hagree p i hi hold hp
      · have hp : p = pid := by simpa using hnew
        subst hp
        exact lookupA_insertA_self m p i
    · rw [s.getQueue_setQueue_ne q i _ (fun e => hiq e.symm)] at hmem
      have hp : p ≠ pid := fun e => hnotmem i hi (e ▸ hmem)
      rw [lookupA_insertA_ne _ _ _ _ hp]
      exact hagree p i hi hmem hp

theorem setQueue_getQueue_self (s : MLFQScheduler) (i : Nat) :
    s.setQueue i (s.getQueue i) = s := by
  rcases i with _ | _ | _ | _ | i <;> rfl

theorem filter_ne_of_not_mem (l : List Nat) (pid : Nat) (h : pid ∉ l) :
    l.filter (fun p => p != pid) = l := by
  induction l with
  | nil => rfl
  | cons a t ih =>
    have ha : a ≠ pid := fun e => h (by rw [e]; exact List.mem_cons_self pid t)
    have ht : pid ∉ t := fun hm => h (List.mem_cons_of_mem a hm)
    simp [List.filter_cons, ha, ih ht]

theorem inv_rem (s : MLFQScheduler) (pid : Nat) (hInv : SchedInv s) :
    SchedInv (s.remove_process pid) := by
  obtain ⟨hkeys, hnodup, hbound, hagree⟩ := hInv
  unfold MLFQScheduler.remove_process
  rcases hl : lookupA s.process_queue_map pid with _ | qi
  · exact ⟨hkeys, hnodup, hbound, hagree⟩
  · show SchedInv { s.setQueue qi ((s.getQueue qi).filter (fun p => p != pid)) with
        process_queue_map := eraseA s.process_queue_map pid }
    have hqi : qi < 4 := hbound pid qi hl
    have hproj : ∀ j, ({ s.setQueue qi ((s.getQueue qi).filter (fun p => p != pid)) with
        process_queue_map := eraseA s.process_queue_map pid } : MLFQScheduler).getQueue j =
          (s.setQueue qi ((s.getQueue qi).filter (fun p => p != pid))).getQueue j := by
      intro j
      rcases j with _ | _ | _ | _ | j <;> rfl
    refine ⟨keysNodup_eraseA _ _ hkeys, ?_, ?_, ?_⟩
    · have hsub : ((s.getQueue qi).filter (fun p => p != pid)).Sublist (s.getQueue qi) :=
        List.filter_sublist _
      interval_cases qi
      · exact (((hsub.append (List.Sublist.refl s.q1)).append
          (List.Sublist.refl s.q2)).append (List.Sublist.refl s.q3)).nodup hnodup
      · exact ((((List.Sublist.refl s.q0).append hsub).append
          (List.Sublist.refl s.q2)).append (List.Sublist.refl s.q3)).nodup hnodup
      · exact ((((List.Sublist.refl s.q0).append (List.Sublist.refl s.q1)).append
          hsub).append (List.Sublist.refl s.q3)).nodup hnodup
      · exact ((((List.Sublist.refl s.q0).append (List.Sublist.refl s.q1)).append
          (List.Sublist.refl s.q2)).append hsub).nodup hnodup
    · intro p v h
      by_cases hp : p = pid
      · subst hp
        rw [lookupA_eraseA_self] at h
        cases h
      · rw [lookupA_eraseA_ne _ _ _ hp] at h
        exact hbound p v h
    · intro p i hi hmem
      rw [hproj i] at hmem
      by_cases hiq : i = qi
      · subst hiq
        rw [s.getQueue_setQueue_self i _ hi] at hmem
        have hm2 : p ∈ s.getQueue i ∧ p ≠ pid := by
          have := List.mem_filter.mp hmem
          exact ⟨this.1, by simpa using this.2⟩
        rw [lookupA_eraseA_ne _ _ _ hm2.2]
        exact hagree p i hi hm2.1
      · rw [s.getQueue_setQueue_ne qi i _ (fun e => hiq e.symm)] at hmem
        have hp : p ≠ pid := by
          intro e
          subst e
          have h2 := hagree p i hi hmem
          injection (hl.symm.trans h2) with h3
          exact hiq h3.symm
        rw [lookupA_eraseA_ne _ _ _ hp]
        exact hagree p i hi hmem

theorem inv_move (s : MLFQScheduler) (pid cq nq : Nat) (hInv : SchedInv s)
    (hl : lookupA s.process_queue_map pid = some cq)
    (hpid : pid ∉ s.allQueues) (hnq : nq < 4) :
    SchedInv (s.move_process_to_queue pid nq) := by
  obtain ⟨hkeys, hnodup, hbound, hagree⟩ := hInv
  unfold MLFQScheduler.move_process_to_queue
  rw [if_pos hnq, hl]
  have hfilter : (s.getQueue cq).filter (fun p => p != pid) = s.getQueue cq := by
    apply filter_ne_of_not_mem
    intro hmem
    by_cases hcq : cq < 4
    · exact hpid ((s.mem_allQueues_iff pid).mpr ⟨cq, hcq, hmem⟩)
    · rw [s.getQueue_oob cq (by omega)] at hmem
      exact (List.not_mem_nil pid) hmem
  show SchedInv
    { ({ s.setQueue cq ((s.getQueue cq).filter (fun p => p != pid)) with
          process_queue_map := eraseA s.process_queue_map pid } : MLFQScheduler).setQueue nq
        (({ s.setQueue cq ((s.getQueue cq).filter (fun p => p != pid)) with
            process_queue_map := eraseA s.process_queue_map pid } : MLFQScheduler).getQueue nq
          ++ [pid]) with
        process_queue_map := insertA (eraseA s.process_queue_map pid) pid nq }
  rw [hfilter, setQueue_getQueue_self s cq]
  exact inv_append_insert { s with process_queue_map := eraseA s.process_queue_map pid }
    (eraseA s.process_queue_map pid) pid nq hnq
    (keysNodup_eraseA _ _ hkeys) hnodup hpid
    (fun p v h => by
      by_cases hp : p = pid
      · subst hp
        rw [lookupA_eraseA_self] at h
        cases h
      · rw [lookupA_eraseA_ne _ _ _ hp] at h
        exact hbound p v h)
    (fun p i hi hm hp => by
      rw [lookupA_eraseA_ne _ _ _ hp]
      exact hagree p i hi hm)

theorem inv_add (s : MLFQScheduler) (pid : Nat) (hInv : SchedInv s)
    (h : lookupA s.process_queue_map pid = none) :
    SchedInv (s.add_process pid) := by
  obtain ⟨hkeys, hnodup, hbound, hagree⟩ := hInv
  have hpid := untracked_not_mem s pid hagree h
  exact inv_append_insert s s.process_queue_map pid 3 (by omega) hkeys hnodup hpid hbound
    (fun p i hi hm _ => hagree p i hi hm)

theorem inv_addTo (s : MLFQScheduler) (pid queue : Nat) (hInv : SchedInv s)
    (h : lookupA s.process_queue_map pid = none) :
    SchedInv (s.add_process_to_queue pid queue) := by
  obtain ⟨hkeys, hnodup, hbound, hagree⟩ := hInv
  unfold MLFQScheduler.add_process_to_queue
  by_cases hq : queue < 4
  · rw [if_pos hq]
    exact inv_append_insert s s.process_queue_map pid queue hq hkeys hnodup
      (untracked_not_mem s pid hagree h) hbound (fun p i hi hm _ => hagree p i hi hm)
  · rw [if_neg hq]
    exact ⟨hkeys, hnodup, hbound, hagree⟩

theorem inv_ufq (s : MLFQScheduler) (pid : Nat) (hInv : SchedInv s)
    (hpid : pid ∉ s.allQueues) : SchedInv (s.process_used_full_quantum pid) := by
  obtain ⟨hkeys, hnodup, hbound, hagree⟩ := hInv
  unfold MLFQScheduler.process_used_full_quantum
  rcases hl : lookupA s.process_queue_map pid with _ | cq
  · exact ⟨hkeys, hnodup, hbound, hagree⟩
  · show SchedInv (if cq < 3 then s.move_process_to_queue pid (cq + 1)
      else { s with q3 := s.q3 ++ [pid] })
    have hcq : cq < 4 := hbound pid cq hl
    by_cases h3 : cq < 3
    · rw [if_pos h3]
      exact inv_move s pid cq (cq + 1) ⟨hkeys, hnodup, hbound, hagree⟩ hl hpid (by omega)
    · rw [if_neg h3]
      have hcq3 : cq = 3 := by omega
      subst hcq3
      refine ⟨hkeys, ?_, hbound, ?_⟩
      · exact (nodup_insert4 pid s.q0 s.q1 s.q2 s.q3 hnodup hpid).2.2.2
      · intro p i hi hmem
        have hgq : ({ s with q3 := s.q3 ++ [pid] } : MLFQScheduler).getQueue i =
            if i = 3 then s.q3 ++ [pid] else s.getQueue i := by
          interval_cases i <;> simp [MLFQScheduler.getQueue]
        rw [hgq] at hmem
        by_cases hi3 : i = 3
        · rw [if_pos hi3] at hmem
          subst hi3
          rcases List.mem_append.mp hmem with hold | hnew
          · exact hagree p 3 (by omega) hold
          · have hp : p = pid := by simpa using hnew
            subst hp
            exact hl
        · rw [if_neg hi3] at hmem
          exact hagree p i hi hmem

theorem inv_yld (s : MLFQScheduler) (pid : Nat) (hInv : SchedInv s)
    (hpid : pid ∉ s.allQueues) : SchedInv (s.process_yielded_early pid) := by
  obtain ⟨hkeys, hnodup, hbound, hagree⟩ := hInv
  unfold MLFQScheduler.process_yielded_early
  rcases hl : lookupA s.process_queue_map pid with _ | cq
  · exact ⟨hkeys, hnodup, hbound, hagree⟩
  · show SchedInv (if 0 < cq then s.move_process_to_queue pid (cq - 1)
      else { s with q0 := s.q0 ++ [pid] })
    have hcq : cq < 4 := hbound pid cq hl
    by_cases h0 : 0 < cq
    · rw [if_pos h0]
      exact inv_move s pid cq (cq - 1) ⟨hkeys, hnodup, hbound, hagree⟩ hl hpid (by omega)
    · rw [if_neg h0]
      have hcq0 : cq = 0 := by omega
      subst hcq0
      refine ⟨hkeys, ?_, hbound, ?_⟩
      · exact (nodup_insert4 pid s.q0 s.q1 s.q2 s.q3 hnodup hpid).1
      · intro p i hi hmem
        have hgq : ({ s with q0 := s.q0 ++ [pid] } : MLFQScheduler).getQueue i =
            if i = 0 then s.q0 ++ [pid] else s.getQueue i := by
          interval_cases i <;> simp [MLFQScheduler.getQueue]
        rw [hgq] at hmem
        by_cases hi0 : i = 0
        · rw [if_pos hi0] at hmem
          subst hi0
          rcases List.mem_append.mp hmem with hold | hnew
          · exact hagree p 0 (by omega) hold
          · have hp : p = pid := by simpa using hnew
            subst hp
            exact hl
        · rw [if_neg hi0] at hmem
          exact hagree p i hi hmem

theorem inv_boost (t : MLFQScheduler) (hInv : SchedInv t) :
    SchedInv t.priority_boost := by
  obtain ⟨hkeys, hnodup, hbound, hagree⟩ := hInv
  refine ⟨?_, ?_, ?_, ?_⟩
  · exact MLFQScheduler.drainTo0_fst_keysNodup t.q3 _ _
      (MLFQScheduler.drainTo0_fst_keysNodup t.q2 _ _
        (MLFQScheduler.drainTo0_fst_keysNodup t.q1 _ _ hkeys))
  · obtain ⟨e1, e2, e3⟩ := MLFQScheduler.priority_boost_rest t
    have e : (t.priority_boost).allQueues = t.q0 ++ t.q1 ++ t.q2 ++ t.q3 := by
      show (t.priority_boost).q0 ++ (t.priority_boost).q1 ++ (t.priority_boost).q2 ++
        (t.priority_boost).q3 = _
      rw [MLFQScheduler.priority_boost_q0, e1, e2, e3]
      simp
    rw [e]
    exact hnodup
  · intro p v h
    rw [MLFQScheduler.priority_boost_lookup] at h
    by_cases hm : p ∈ t.q1 ++ t.q2 ++ t.q3
    · rw [if_pos hm] at h
      cases h
      omega
    · rw [if_neg hm] at h
      exact hbound p v h
  · intro p i hi hmem
    rw [MLFQScheduler.priority_boost_lookup]
    interval_cases i
    · rw [show (t.priority_boost).getQueue 0 = (t.priority_boost).q0 from rfl,
        MLFQScheduler.priority_boost_q0] at hmem
      by_cases hm : p ∈ t.q1 ++ t.q2 ++ t.q3
      · rw [if_pos hm]
      · rw [if_neg hm]
        have hp0 : p ∈ t.q0 := by
          simp only [List.mem_append] at hmem hm
          tauto
        exact hagree p 0 (by omega) hp0
    · exact absurd hmem (List.not_mem_nil p)
    · exact absurd hmem (List.not_mem_nil p)
    · exact absurd hmem (List.not_mem_nil p)

theorem inv_select (t : MLFQScheduler) (hInv : SchedInv t) :
    SchedInv (MLFQScheduler.selectNext t).2 := by
  obtain ⟨hkeys, hnodup, hbound, hagree⟩ := hInv
  obtain ⟨A0, A1, A2, A3, tq, m, bi, ct, cp, tr⟩ := t
  rcases A0 with _ | ⟨a, rest⟩
  · rcases A1 with _ | ⟨a, rest⟩
    · rcases A2 with _ | ⟨a, rest⟩
      · rcases A3 with _ | ⟨a, rest⟩
        · exact ⟨hkeys, hnodup, hbound, hagree⟩
        · refine ⟨hkeys, ?_, hbound, ?_⟩
          · exact ((((List.Sublist.refl []).append (List.Sublist.refl [])).append
              (List.Sublist.refl [])).append (List.sublist_cons_self a rest)).nodup hnodup
          · intro p i hi hmem
            interval_cases i
            · exact absurd hmem (List.not_mem_nil p)
            · exact absurd hmem (List.not_mem_nil p)
            · exact absurd hmem (List.not_mem_nil p)
            · exact hagree p 3 (by omega) (List.mem_cons_of_mem a hmem)
      · refine ⟨hkeys, ?_, hbound, ?_⟩
        · exact ((((List.Sublist.refl []).append (List.Sublist.refl [])).append
            (List.sublist_cons_self a rest)).append (List.Sublist.refl A3)).nodup hnodup
        · intro p i hi hmem
          interval_cases i
          · exact absurd hmem (List.not_mem_nil p)
          · exact absurd hmem (List.not_mem_nil p)
          · exact hagree p 2 (by omega) (List.mem_cons_of_mem a hmem)
          · exact hagree p 3 (by omega) hmem
    · refine ⟨hkeys, ?_, hbound, ?_⟩
      · exact ((((List.Sublist.refl []).append (List.sublist_cons_self a rest)).append
          (List.Sublist.refl A2)).append (List.Sublist.refl A3)).nodup hnodup
      · intro p i hi hmem
        interval_cases i
        · exact absurd hmem (List.not_mem_nil p)
        · exact hagree p 1 (by omega) (List.mem_cons_of_mem a hmem)
        · exact hagree p 2 (by omega) hmem
        · exact hagree p 3 (by omega) hmem
  · refine ⟨hkeys, ?_, hbound, ?_⟩
    · exact ((((List.sublist_cons_self a rest).append (List.Sublist.refl A1)).append
        (List.Sublist.refl A2)).append (List.Sublist.refl A3)).nodup hnodup
    · intro p i hi hmem
      interval_cases i
      · exact hagree p 0 (by omega) (List.mem_cons_of_mem a hmem)
      · exact hagree p 1 (by omega) hmem
      · exact hagree p 2 (by omega) hmem
      · exact hagree p 3 (by omega) hmem

theorem inv_next (s : MLFQScheduler) (hInv : SchedInv s) :
    SchedInv (s.next_process).2 := by
  have h1 : SchedInv s.tickInc := hInv
  have h2 : SchedInv s.afterBoost := by
    simp only [MLFQScheduler.afterBoost]
    by_cases hb : MLFQScheduler.boostCond s.tickInc = true
    · rw [if_pos hb]
      exact inv_boost s.tickInc h1
    · rw [if_neg hb]
      exact h1
  exact inv_select s.afterBoost h2

theorem inv_new : SchedInv MLFQScheduler.new := by
  refine ⟨List.nodup_nil, List.nodup_nil, ?_, ?_⟩
  · intro p v h
    exact Option.noConfusion h
  · intro p i hi hm
    interval_cases i <;> exact absurd hm (List.not_mem_nil p)

theorem inv_reset (s : MLFQScheduler) : SchedInv s.reset := by
  refine ⟨List.nodup_nil, List.nodup_nil, ?_, ?_⟩
  · intro p v h
    exact Option.noConfusion h
  · intro p i hi hm
    interval_cases i <;> exact absurd hm (List.not_mem_nil p)

/-- Every guarded-reachable scheduler state satisfies the conservation
invariant. -/
theorem sched_inv_reach (s : MLFQScheduler) (h : GReach s) : SchedInv s := by
  induction h with
  | init => exact inv_new
  | add pid hr hnone ih => exact inv_add _ pid ih hnone
  | addTo pid queue hr hnone ih => exact inv_addTo _ pid queue ih hnone
  | rem pid hr ih => exact inv_rem _ pid ih
  | next hr ih => exact inv_next _ ih
  | ufq pid hr hmem ih => exact inv_ufq _ pid ih hmem
  | yld pid hr hmem ih => exact inv_yld _ pid ih hmem
  | reset hr ih => exact inv_reset _

theorem length_filter_split {α : Type} (l : List α) (p : α → Bool) :
    l.length = (l.filter p).length + (l.filter (fun a => !(p a))).length := by
  induction l with
  | nil => rfl
  | cons a t ih =>
    by_cases hp : p a = true
    · simp [List.filter_cons, hp]
      omega
    · have hf : p a = false := by simpa using hp
      simp [List.filter_cons, hf]
      omega

theorem keys_filter_comm {α : Type} (m : List (Nat × α)) (pred : Nat → Bool) :
    (m.filter (fun kv => pred kv.1)).map Prod.fst = (m.map Prod.fst).filter pred := by
  induction m with
  | nil => rfl
  | cons a t ih =>
    by_cases hp : pred a.1 = true
    · simp [List.filter_cons, hp, ih]
    · have hf : pred a.1 = false := by simpa using hp
      simp [List.filter_cons, hf, ih]

theorem length_filter_keys (m : List (Nat × Nat)) (l : List Nat)
    (hkeys : KeysNodup m) (hl : l.Nodup)
    (hsub : ∀ a ∈ l, a ∈ m.map Prod.fst) :
    (m.filter (fun kv => decide (kv.1 ∈ l))).length = l.length := by
  have hmap : (m.filter (fun kv => decide (kv.1 ∈ l))).map Prod.fst =
      (m.map Prod.fst).filter (fun k => decide (k ∈ l)) :=
    keys_filter_comm m (fun k => decide (k ∈ l))
  have hperm : List.Perm ((m.map Prod.fst).filter (fun k => decide (k ∈ l))) l := by
    apply (List.perm_ext_iff_of_nodup (hkeys.filter _) hl).mpr
    intro a
    simp only [List.mem_filter, decide_eq_true_eq]
    exact ⟨fun h => h.2, fun h => ⟨hsub a h, h⟩⟩
  calc (m.filter (fun kv => decide (kv.1 ∈ l))).length
      = ((m.filter (fun kv => decide (kv.1 ∈ l))).map Prod.fst).length :=
        (List.length_map _ _).symm
    _ = ((m.map Prod.fst).filter (fun k => decide (k ∈ l))).length := by rw [hmap]
    _ = l.length := hperm.length_eq

theorem length_split_keys (m : List (Nat × Nat)) (l : List Nat)
    (hkeys : KeysNodup m) (hl : l.Nodup)
    (hsub : ∀ a ∈ l, a ∈ m.map Prod.fst) :
    m.length = l.length + (m.filter (fun kv => decide (kv.1 ∉ l))).length := by
  have h1 := length_filter_split m (fun kv => decide (kv.1 ∈ l))
  have h2 : m.filter (fun kv => !(decide (kv.1 ∈ l))) =
      m.filter (fun kv => decide (kv.1 ∉ l)) := by
    apply List.filter_congr
    intro a _
    simp [decide_not]
  rw [length_filter_keys m l hkeys hl hsub, h2] at h1
  exact h1

/-- C2 counterexample: after add(1) and one nextProcess call — both
public operations — identifier 1 is still tracked in the reverse index
(size 1) while every queue is empty (length sum 0), so the reverse
index does not equal the sum of queue lengths and the tracked
identifier is in no queue. -/
theorem C2_counterexample :
    ((MLFQScheduler.new.add_process 1).next_process).2.process_queue_map.length = 1 ∧
    ((MLFQScheduler.new.add_process 1).next_process).2.allQueues = [] ∧
    ((MLFQScheduler.new.add_process 1).next_process).2.get_process_queue 1 = some 3 := by
  decide

/-- C2 amended.  In every scheduler state reachable through the public
operations under the intended usage discipline — add/addToQueue only
for identifiers not already tracked, and usedFullQuantum/yieldedEarly
only for the dispatched identifier (one currently in no queue) — the
queues hold pairwise-distinct identifiers, every queued identifier is
indexed with exactly its queue, and the reverse-index size equals the
sum of the four queue lengths plus the number of tracked identifiers
currently in no queue (dispatched by nextProcess and not yet
re-enqueued or removed).  Unrestricted, the original equality fails:
nextProcess pops an identifier but leaves it tracked, as the
counterexample shows. -/
theorem C2_conservation (s : MLFQScheduler) (h : GReach s) :
    s.allQueues.Nodup ∧
    (∀ pid i, i < 4 → pid ∈ s.getQueue i → s.get_process_queue pid = some i) ∧
    s.process_queue_map.length =
      s.allQueues.length +
        (s.process_queue_map.filter (fun kv => decide (kv.1 ∉ s.allQueues))).length := by
  obtain ⟨hkeys, hnodup, hbound, hagree⟩ := sched_inv_reach s h
  refine ⟨hnodup, fun pid i hi hm => hagree pid i hi hm, ?_⟩
  apply length_split_keys _ _ hkeys hnodup
  intro a ha
  rcases (s.mem_allQueues_iff a).mp ha with ⟨i, hi, hmi⟩
  exact (lookupA_isSome_iff_mem_keys _ _).mp (by rw [hagree a i hi hmi]; rfl)

/-- Witness for the amended C2: the reachable state built by add(1),
nextProcess (dispatching 1), usedFullQuantum(1): one tracked
identifier, one queue entry, none in flight. -/
theorem C2_conservation_witness :
    ((((MLFQScheduler.new.add_process 1).next_process).2).process_used_full_quantum 1
        ).allQueues.Nodup ∧
    ((((MLFQScheduler.new.add_process 1).next_process).2).process_used_full_quantum 1
        ).process_queue_map.length =
      ((((MLFQScheduler.new.add_process 1).next_process).2).process_used_full_quantum 1
          ).allQueues.length +
        (((((MLFQScheduler.new.add_process 1).next_process).2).process_used_full_quantum 1
            ).process_queue_map.filter (fun kv => decide (kv.1 ∉
          ((((MLFQScheduler.new.add_process 1).next_process).2).process_used_full_quantum 1
              ).allQueues))).length := by
  have hreach : GReach
      ((((MLFQScheduler.new.add_process 1).next_process).2).process_used_full_quantum 1) :=
    GReach.ufq 1 (GReach.next (GReach.add 1 GReach.init (by decide))) (by decide)
  obtain ⟨h1, -, h3⟩ := C2_conservation _ hreach
  exact ⟨h1, h3⟩

end OsSim
